import Mathlib

/-!
Verification of the BusTub buffer-pool core, shallowly embedded from
`src/buffer/clock_replacer.cpp` and `src/buffer/buffer_pool_manager_instance.cpp`.

The `ClockReplacer` keeps three parallel arrays of length `max_size_`
(`frame_ids_`, with `-1` marking an empty slot, `pinned_`, `ref_bits_`),
a clock hand `now_` and a counter `size_`.  The buffer pool manager keeps a
frame array, a page table (page id to frame index), a free list, a replacer
and the page-id allocation counter.  Machine integers are modelled as
`Int`/`Nat` (no overflow is reachable in the scenarios considered), the
potentially diverging clock sweep is modelled with explicit fuel, and the
disk is irrelevant to the stated claims, so `DiskManager` calls are no-ops
on the modelled state.
-/

namespace Bustub

/-- State of `ClockReplacer` (clock_replacer.cpp, constructor lines 17-23). -/
structure ClockReplacer where
  frame_ids : List Int
  pinned : List Bool
  ref_bits : List Bool
  max_size : Nat
  now : Nat
  size : Nat
deriving DecidableEq, Repr

/-- `ClockReplacer::ClockReplacer(num_pages)`: all slots empty, hand at 0. -/
def initClock (num_pages : Nat) : ClockReplacer :=
  { frame_ids := List.replicate num_pages (-1)
    pinned := List.replicate num_pages false
    ref_bits := List.replicate num_pages false
    max_size := num_pages
    now := 0
    size := 0 }

/-- Index of the first slot among `0..max_size_-1` whose frame id equals `f`
(the scan pattern of `Pin`/`Unpin`). -/
def slotOf (r : ClockReplacer) (f : Int) : Option Nat :=
  (List.range r.max_size).find? (fun i => r.frame_ids.getD i (-1) == f)

/-- `ClockReplacer::Pin` (lines 57-78): if the frame is present, mark it pinned
and set its reference bit; otherwise register it in the first empty slot as
pinned with the reference bit cleared (the source deliberately stores `false`,
line 72) and bump `size_`; if the replacer is full, do nothing. -/
def pinR (r : ClockReplacer) (f : Int) : ClockReplacer :=
  match slotOf r f with
  | some i =>
    { r with pinned := r.pinned.set i true, ref_bits := r.ref_bits.set i true }
  | none =>
    match slotOf r (-1) with
    | some i =>
      { r with frame_ids := r.frame_ids.set i f
               pinned := r.pinned.set i true
               ref_bits := r.ref_bits.set i false
               size := min (r.size + 1) r.max_size }
    | none => r

/-- `ClockReplacer::Unpin` (lines 80-107): if the frame is present and pinned,
set its reference bit and clear the pinned flag; if present and unpinned, do
nothing; otherwise register it unpinned in the first empty slot with the
reference bit cleared and bump `size_`. -/
def unpinR (r : ClockReplacer) (f : Int) : ClockReplacer :=
  match slotOf r f with
  | some i =>
    if r.pinned.getD i false then
      { r with ref_bits := r.ref_bits.set i true, pinned := r.pinned.set i false }
    else r
  | none =>
    match slotOf r (-1) with
    | some i =>
      { r with frame_ids := r.frame_ids.set i f
               pinned := r.pinned.set i false
               ref_bits := r.ref_bits.set i false
               size := min (r.size + 1) r.max_size }
    | none => r

/-- `ClockReplacer::Size` (lines 109-118): slots holding a frame with the
pinned flag clear. -/
def sizeR (r : ClockReplacer) : Nat :=
  (List.range r.max_size).countP
    (fun i => r.frame_ids.getD i (-1) != -1 && !(r.pinned.getD i false))

/-- The unbounded sweep of `ClockReplacer::Victim` (lines 42-54), run with
explicit fuel; `none` means the fuel was exhausted before the loop returned.
Each iteration inspects slot `now_`, then advances the hand modulo `size_`. -/
def victimSweep : Nat → ClockReplacer → Option (Int × ClockReplacer)
  | 0, _ => none
  | fuel + 1, r =>
    if r.pinned.getD r.now false || r.frame_ids.getD r.now (-1) == -1 then
      victimSweep fuel { r with now := (r.now + 1) % r.size }
    else if r.ref_bits.getD r.now false then
      victimSweep fuel
        { r with ref_bits := r.ref_bits.set r.now false, now := (r.now + 1) % r.size }
    else
      some (r.frame_ids.getD r.now (-1),
        { r with frame_ids := r.frame_ids.set r.now (-1), now := (r.now + 1) % r.size })

/-- `ClockReplacer::Victim` (lines 27-55): the two early-return guards
(`size_ == 0`, and every counted slot pinned), then the sweep.  The result is
`some (none, r)` for a `false` return, `some (some f, r)` for a `true` return
delivering frame `f`, and `none` when the sweep did not terminate within the
given fuel. -/
def pinnedCount (r : ClockReplacer) : Nat :=
  (List.range r.size).countP
    (fun i => r.frame_ids.getD i (-1) != -1 && r.pinned.getD i false)

def victimR (fuel : Nat) (r : ClockReplacer) : Option (Option Int × ClockReplacer) :=
  if r.size = 0 then some (none, r)
  else if pinnedCount r = r.size then some (none, r)
  else
    match victimSweep fuel r with
    | some (f, r2) => some (some f, r2)
    | none => none

/-! Small list helpers shared by the developments below. -/

theorem getD_set_self {α : Type} (l : List α) (i : Nat) (a d : α) (h : i < l.length) :
    (l.set i a).getD i d = a := by
  rw [List.getD_eq_getElem?_getD, List.getElem?_set_self', List.getElem?_eq_getElem h]
  rfl

theorem getD_set_ne {α : Type} (l : List α) {i j : Nat} (a d : α) (hij : i ≠ j) :
    (l.set i a).getD j d = l.getD j d := by
  rw [List.getD_eq_getElem?_getD, List.getD_eq_getElem?_getD, List.getElem?_set_ne hij]

theorem lt_of_getD_ne {α : Type} {l : List α} {i : Nat} {d : α} (h : l.getD i d ≠ d) :
    i < l.length := by
  by_contra hge
  have : l[i]? = none := List.getElem?_eq_none (Nat.le_of_not_lt hge)
  rw [List.getD_eq_getElem?_getD, this] at h
  exact h rfl

theorem slotOf_lt {r : ClockReplacer} {f : Int} {i : Nat} (h : Bustub.slotOf r f = some i) :
    i < r.max_size :=
  List.mem_range.mp (List.mem_of_find?_eq_some h)

theorem slotOf_val {r : ClockReplacer} {f : Int} {i : Nat} (h : Bustub.slotOf r f = some i) :
    r.frame_ids.getD i (-1) = f := by
  have := List.find?_some h
  exact beq_iff_eq.mp this

theorem slotOf_none {r : ClockReplacer} {f : Int} (h : Bustub.slotOf r f = none) :
    ∀ i, i < r.max_size → r.frame_ids.getD i (-1) ≠ f := by
  intro i hi hval
  have := List.find?_eq_none.mp h i (List.mem_range.mpr hi)
  exact this (beq_iff_eq.mpr hval)

theorem slotOf_isSome {r : ClockReplacer} {f : Int} {i : Nat} (hi : i < r.max_size)
    (hv : r.frame_ids.getD i (-1) = f) : ∃ j, Bustub.slotOf r f = some j := by
  cases hs : Bustub.slotOf r f with
  | some j => exact ⟨j, rfl⟩
  | none => exact absurd hv (slotOf_none hs i hi)

/-! Replacer-level claims. -/

/-- The replacer state reached from `initClock 1` by `Unpin 1` followed by one
successful `Victim`: the only slot is empty again, but `size_` is still 1,
because `Victim` never decrements `size_` when it removes a frame. -/
def stuckReplacer : ClockReplacer :=
  { frame_ids := [-1], pinned := [false], ref_bits := [false]
    max_size := 1, now := 0, size := 1 }

theorem victimSweep_stuck (fuel : Nat) : victimSweep fuel stuckReplacer = none := by
  induction fuel with
  | zero => rfl
  | succ n ih => exact ih

/-- C2: refuted on the code.  From a freshly constructed one-slot replacer,
`Unpin 1` then `Victim` (which succeeds and evicts frame 1) reach
`stuckReplacer`, whose evictable count is zero; the claim says the next
`Victim` call must return false, but the guard `pinned_cnt == size_` fails
(the slot is empty, not pinned, and `size_` was never decremented), so the
sweep runs and skips the empty slot forever: no amount of fuel makes it
return at all. -/
theorem victim_no_termination :
    victimR 1 (unpinR (initClock 1) 1) = some (some 1, stuckReplacer) ∧
    sizeR stuckReplacer = 0 ∧
    ∀ fuel, victimR fuel stuckReplacer = none := by
  refine ⟨by decide, by decide, ?_⟩
  intro fuel
  have hred : victimR fuel stuckReplacer =
      (match victimSweep fuel stuckReplacer with
       | some (f, r2) => some (some f, r2)
       | none => none) := rfl
  rw [hred, victimSweep_stuck]

/-- C8, counterexample: `Pin(5)` on a fresh one-slot replacer registers frame 5
and marks it pinned, but stores reference bit `false`, not `true` as the claim
states (clock_replacer.cpp line 72 deliberately writes `false`). -/
theorem pin_absent_ref_bit_clear :
    (pinR (initClock 1) 5).frame_ids.getD 0 (-1) = 5 ∧
    (pinR (initClock 1) 5).pinned.getD 0 false = true ∧
    ¬((pinR (initClock 1) 5).ref_bits.getD 0 false = true) := by decide

/-- C8, amended: for a frame id `f` not registered (and an empty slot
available), `Pin(f)` registers `f` in the first empty slot, marks it pinned,
and CLEARS its reference bit; for `f` already registered in slot `i`, `Pin(f)`
marks slot `i` pinned and sets its reference bit, leaving the frame ids
unchanged. -/
theorem pinR_spec (r : ClockReplacer) (f : Int)
    (hpl : r.pinned.length = r.max_size)
    (hrl : r.ref_bits.length = r.max_size)
    (hfl : r.frame_ids.length = r.max_size) :
    (∀ i, slotOf r f = some i →
      (pinR r f).frame_ids = r.frame_ids ∧
      (pinR r f).pinned.getD i false = true ∧
      (pinR r f).ref_bits.getD i false = true) ∧
    (slotOf r f = none → ∀ i, slotOf r (-1) = some i →
      (pinR r f).frame_ids.getD i (-1) = f ∧
      (pinR r f).pinned.getD i false = true ∧
      (pinR r f).ref_bits.getD i false = false) := by
  constructor
  · intro i hi
    have hlt := slotOf_lt hi
    rw [pinR, hi]
    exact ⟨rfl, getD_set_self _ _ _ _ (hpl ▸ hlt), getD_set_self _ _ _ _ (hrl ▸ hlt)⟩
  · intro habs i hi
    have hlt := slotOf_lt hi
    rw [pinR, habs, hi]
    exact ⟨getD_set_self _ _ _ _ (hfl ▸ hlt), getD_set_self _ _ _ _ (hpl ▸ hlt),
      getD_set_self _ _ _ _ (hrl ▸ hlt)⟩

/-- Witness for `pinR_spec` at a concrete two-slot replacer holding frame 7 in
slot 0: both the registered case (pin 7) and the absent case (pin 9,
registered into slot 1) are evaluated. -/
theorem pinR_spec_witness :
    ((pinR (ClockReplacer.mk [7, -1] [false, false] [false, false] 2 0 1) 7).pinned.getD 0 false
        = true ∧
      (pinR (ClockReplacer.mk [7, -1] [false, false] [false, false] 2 0 1) 7).ref_bits.getD 0 false
        = true) ∧
    ((pinR (ClockReplacer.mk [7, -1] [false, false] [false, false] 2 0 1) 9).frame_ids.getD 1 (-1)
        = 9 ∧
      (pinR (ClockReplacer.mk [7, -1] [false, false] [false, false] 2 0 1) 9).ref_bits.getD 1 false
        = false) := by
  have h1 := (pinR_spec (ClockReplacer.mk [7, -1] [false, false] [false, false] 2 0 1) 7
    (by decide) (by decide) (by decide)).1 0 (by decide)
  have h2 := (pinR_spec (ClockReplacer.mk [7, -1] [false, false] [false, false] 2 0 1) 9
    (by decide) (by decide) (by decide)).2 (by decide) 1 (by decide)
  exact ⟨⟨h1.2.1, h1.2.2⟩, ⟨h2.1, h2.2.2⟩⟩

/-- C10: `Unpin(f)` on a frame that is registered and not pinned leaves the
whole replacer state unchanged (in particular the reference bit stays as it
was, the pinned flag stays false, and `Size()` is unchanged). -/
theorem unpinR_noop (r : ClockReplacer) (f : Int)
    (hreg : ∃ i, i < r.max_size ∧ r.frame_ids.getD i (-1) = f)
    (hunp : ∀ i, i < r.max_size → r.frame_ids.getD i (-1) = f →
      r.pinned.getD i false = false) :
    unpinR r f = r ∧ sizeR (unpinR r f) = sizeR r := by
  obtain ⟨i, hi, hv⟩ := hreg
  obtain ⟨j, hj⟩ := slotOf_isSome hi hv
  have hp := hunp j (slotOf_lt hj) (slotOf_val hj)
  have heq : unpinR r f = r := by
    rw [unpinR, hj]
    show (if r.pinned.getD j false = true then
        { r with ref_bits := r.ref_bits.set j true, pinned := r.pinned.set j false }
      else r) = r
    rw [hp]
    simp
  exact ⟨heq, by rw [heq]⟩

/-- Witness for `unpinR_noop`: a two-slot replacer with frame 3 unpinned in
slot 1. -/
theorem unpinR_noop_witness :
    unpinR (ClockReplacer.mk [8, 3] [true, false] [false, true] 2 0 2) 3 =
      ClockReplacer.mk [8, 3] [true, false] [false, true] 2 0 2 :=
  (unpinR_noop (ClockReplacer.mk [8, 3] [true, false] [false, true] 2 0 2) 3
    ⟨1, by decide, by decide⟩ (by decide)).1

/-! The buffer pool manager instance
(`src/buffer/buffer_pool_manager_instance.cpp`).  Page payload bytes are not
mentioned by any claim, so `DiskManager::ReadPage`/`WritePage` and
`ResetMemory` are no-ops on the modelled state. -/

/-- Metadata of one frame of the pool.  Modelled from the spec: the `Page`
class itself lives in a header that is not part of the sources; spec section 3
fixes its fields (`page_id` with sentinel -1, non-negative `pin_count`,
`is_dirty`) and the construction-time values (every frame starts on the free
list with `page_id = INVALID`, `pin_count = 0`, `is_dirty = false`). -/
structure Page where
  page_id : Int
  pin_count : Nat
  is_dirty : Bool
deriving DecidableEq, Repr

/-- State of `BufferPoolManagerInstance`.  The page table is an association
list from page id to frame index (insertion overwrites, as
`std::unordered_map::operator[]` does).  `deallocated` is a ghost log of the
page ids passed to the `DeallocatePage` hook; modelled from the spec
(section 4.2.6), since the hook itself is declared in a header outside the
sources and has no other observable effect. -/
structure BPMI where
  pool_size : Nat
  num_instances : Nat
  instance_index : Nat
  next_page_id : Int
  pages : List Page
  page_table : List (Int × Nat)
  free_list : List Nat
  replacer : ClockReplacer
  deallocated : List Int
deriving DecidableEq, Repr

/-- `page_table_.find(p)` returning the mapped frame. -/
def lookupT (t : List (Int × Nat)) (p : Int) : Option Nat :=
  (t.find? (fun e => e.1 == p)).map (fun e => e.2)

/-- `page_table_.erase(p)`. -/
def eraseT (t : List (Int × Nat)) (p : Int) : List (Int × Nat) :=
  t.filter (fun e => !(e.1 == p))

/-- `page_table_[p] = f` (create or overwrite). -/
def insertT (t : List (Int × Nat)) (p : Int) (f : Nat) : List (Int × Nat) :=
  (p, f) :: eraseT t p

/-- Read of `pages_[f]`; out-of-range reads (never reachable) return the
construction-time metadata. -/
def getPage (s : BPMI) (f : Nat) : Page :=
  s.pages.getD f { page_id := -1, pin_count := 0, is_dirty := false }

/-- The sharded constructor (lines 24-45): counter starts at the instance
index, every frame is on the free list in order `0, 1, ...`, and the replacer
is a fresh `ClockReplacer(pool_size)`. -/
def initBPMI (pool num idx : Nat) : BPMI :=
  { pool_size := pool
    num_instances := num
    instance_index := idx
    next_page_id := (idx : Int)
    pages := List.replicate pool { page_id := -1, pin_count := 0, is_dirty := false }
    page_table := []
    free_list := List.range pool
    replacer := initClock pool
    deallocated := [] }

/-- `AllocatePage` (lines 212-217): return `next_page_id_`, then advance it by
`num_instances_`. -/
def allocatePage (s : BPMI) : Int × BPMI :=
  (s.next_page_id, { s with next_page_id := s.next_page_id + (s.num_instances : Int) })

/-- `FlushPgImp` (lines 52-66): on a resident page, write it out (no-op on the
modelled state) and clear its dirty flag. -/
def flushPg (s : BPMI) (p : Int) : Bool × BPMI :=
  match lookupT s.page_table p with
  | some f =>
    (true, { s with pages := s.pages.set f { getPage s f with is_dirty := false } })
  | none => (false, s)

/-- `FlushAllPgsImp` (lines 68-75): writes every resident page to disk without
touching any flag, so the modelled state is unchanged. -/
def flushAllPg (s : BPMI) : BPMI := s

/-- `UnpinPgImp` (lines 193-210). -/
def unpinPg (s : BPMI) (p : Int) (d : Bool) : Bool × BPMI :=
  match lookupT s.page_table p with
  | none => (false, s)
  | some f =>
    if 0 < (getPage s f).pin_count then
      let pc := (getPage s f).pin_count - 1
      let r := if pc = 0 then unpinR s.replacer ((f : Nat) : Int) else s.replacer
      let dirty := if (getPage s f).is_dirty then (getPage s f).is_dirty else d
      (true, { s with
        pages := s.pages.set f { getPage s f with pin_count := pc, is_dirty := dirty }
        replacer := r })
    else (false, s)

/-- `DeletePgImp` (lines 166-191). -/
def deletePg (s : BPMI) (p : Int) : Bool × BPMI :=
  match lookupT s.page_table p with
  | none => (true, { s with deallocated := p :: s.deallocated })
  | some f =>
    if 0 < (getPage s f).pin_count then (false, s)
    else
      (true, { s with
        pages := s.pages.set f { page_id := -1, pin_count := 0, is_dirty := false }
        free_list := f :: s.free_list
        page_table := eraseT s.page_table p
        deallocated := p :: s.deallocated })

/-- The shared tail of `FetchPgImp` on a miss (lines 147-163), entered with
the chosen frame `f` and the free list already popped (or the replacer state
already advanced): flush-if-dirty is a pure disk write here, then the old
resident id is dropped from the table, `p` is installed, the frame metadata is
rebuilt and the replacer is notified. -/
def fetchInstall (s : BPMI) (p : Int) (f : Nat) : Option Nat × BPMI :=
  (some f, { s with
    page_table := insertT (eraseT s.page_table (getPage s f).page_id) p f
    pages := s.pages.set f { page_id := p, pin_count := 1, is_dirty := false }
    replacer := pinR s.replacer ((f : Nat) : Int) })

/-- `FetchPgImp` (lines 120-164).  The hit path refuses a page whose pin count
is positive (line 129-131).  `none` as the overall result means the victim
sweep did not terminate within `fuel`. -/
def fetchPg (fuel : Nat) (s : BPMI) (p : Int) : Option (Option Nat × BPMI) :=
  match lookupT s.page_table p with
  | some f =>
    if 0 < (getPage s f).pin_count then some (none, s)
    else
      some (some f, { s with
        pages := s.pages.set f { getPage s f with pin_count := (getPage s f).pin_count + 1 }
        replacer := pinR s.replacer ((f : Nat) : Int) })
  | none =>
    match s.free_list with
    | f :: rest => some (fetchInstall { s with free_list := rest } p f)
    | [] =>
      match victimR fuel s.replacer with
      | none => none
      | some (none, r) => some (none, { s with replacer := r })
      | some (some vf, r) => some (fetchInstall { s with replacer := r } p vf.toNat)

/-- The tail of `NewPgImp` (lines 109-117), entered with the chosen frame `f`
and the table entry of an evicted page already erased: allocate the id,
rebuild the frame metadata (dirty on creation), install the table entry and
notify the replacer. -/
def newInstall (s : BPMI) (f : Nat) : Option (Int × Nat) × BPMI :=
  let a := allocatePage s
  (some (a.1, f), { a.2 with
    pages := a.2.pages.set f { page_id := a.1, pin_count := 1, is_dirty := true }
    page_table := insertT a.2.page_table a.1 f
    replacer := pinR a.2.replacer ((f : Nat) : Int) })

/-- `NewPgImp` (lines 77-118): if every frame is pinned, fail; otherwise take
a frame from the free list, or ask the replacer for a victim (flushing it via
`FlushPgImp` when dirty and erasing its table entry).  `none` as the overall
result means the victim sweep did not terminate within `fuel`. -/
def newPg (fuel : Nat) (s : BPMI) : Option (Option (Int × Nat) × BPMI) :=
  if s.pages.all (fun pg => 0 < pg.pin_count) then some (none, s)
  else
    match s.free_list with
    | f :: rest => some (newInstall { s with free_list := rest } f)
    | [] =>
      match victimR fuel s.replacer with
      | none => none
      | some (none, r) => some (none, { s with replacer := r })
      | some (some vf, r) =>
        let f := vf.toNat
        let s1 := { s with replacer := r }
        let s2 := if (getPage s1 f).is_dirty then (flushPg s1 (getPage s1 f).page_id).2 else s1
        let s3 := { s2 with page_table := eraseT s2.page_table (getPage s2 f).page_id }
        some (newInstall s3 f)

/-! Lemmas about the page-table association list and the replacer used by the
per-operation contracts. -/

/-- Well-formed replacer: the three parallel arrays have length `max_size_`
(true of every replacer the constructor can produce). -/
def ReplacerWF (r : ClockReplacer) : Prop :=
  r.frame_ids.length = r.max_size ∧ r.pinned.length = r.max_size ∧
    r.ref_bits.length = r.max_size

/-- A frame id is evictable when some slot holds it with the pinned flag
clear (the counting predicate of `Size`). -/
def evictableR (r : ClockReplacer) (v : Int) : Bool :=
  (List.range r.max_size).any
    (fun i => r.frame_ids.getD i (-1) == v && !(r.pinned.getD i false))

theorem lookupT_eraseT_self (t : List (Int × Nat)) (p : Int) :
    lookupT (eraseT t p) p = none := by
  have : (eraseT t p).find? (fun e => e.1 == p) = none := by
    rw [List.find?_eq_none]
    intro x hx
    have := (List.mem_filter.mp hx).2
    simpa using this
  rw [lookupT, this]
  rfl

theorem getPage_eq (s : BPMI) (f : Nat) :
    getPage s f = s.pages.getD f { page_id := -1, pin_count := 0, is_dirty := false } := rfl

theorem evictableR_unpinR (r : ClockReplacer) (v : Int)
    (hwf : ReplacerWF r)
    (hreg : ∃ i, i < r.max_size ∧ r.frame_ids.getD i (-1) = v) :
    evictableR (unpinR r v) v = true := by
  obtain ⟨i, hi, hv⟩ := hreg
  obtain ⟨j, hj⟩ := slotOf_isSome hi hv
  have hjlt := slotOf_lt hj
  have hjv := slotOf_val hj
  have hred : unpinR r v = if r.pinned.getD j false = true then
      { r with ref_bits := r.ref_bits.set j true, pinned := r.pinned.set j false }
    else r := by
    rw [unpinR, hj]
  by_cases hp : r.pinned.getD j false = true
  · rw [hred, if_pos hp]
    apply List.any_eq_true.mpr
    refine ⟨j, List.mem_range.mpr hjlt, ?_⟩
    show (r.frame_ids.getD j (-1) == v && !((r.pinned.set j false).getD j false)) = true
    rw [hjv, getD_set_self _ _ _ _ (hwf.2.1 ▸ hjlt)]
    simp
  · rw [hred, if_neg hp]
    apply List.any_eq_true.mpr
    refine ⟨j, List.mem_range.mpr hjlt, ?_⟩
    show (r.frame_ids.getD j (-1) == v && !(r.pinned.getD j false)) = true
    simp only [Bool.not_eq_true] at hp
    rw [hjv, hp]
    simp

/-- C6: `UnpinPage(page_id, caller_dirty)` returns false when the page is not
resident or its pin count is 0; otherwise it returns true, decrements the pin
count, sets the dirty flag to the OR of its prior value and `caller_dirty`,
leaves the replacer untouched when the count stays positive, and makes the
frame evictable in the replacer exactly when the count reaches zero. -/
theorem unpinPg_spec (s : BPMI) (p : Int) (d : Bool) :
    (lookupT s.page_table p = none → unpinPg s p d = (false, s)) ∧
    (∀ f, lookupT s.page_table p = some f → (getPage s f).pin_count = 0 →
      unpinPg s p d = (false, s)) ∧
    (∀ f, lookupT s.page_table p = some f → 0 < (getPage s f).pin_count →
      (unpinPg s p d).1 = true ∧
      (getPage (unpinPg s p d).2 f).pin_count = (getPage s f).pin_count - 1 ∧
      (getPage (unpinPg s p d).2 f).is_dirty = ((getPage s f).is_dirty || d) ∧
      (1 < (getPage s f).pin_count → (unpinPg s p d).2.replacer = s.replacer) ∧
      ((getPage s f).pin_count = 1 →
        (unpinPg s p d).2.replacer = unpinR s.replacer ((f : Nat) : Int)) ∧
      ((getPage s f).pin_count = 1 → ReplacerWF s.replacer →
        (∃ i, i < s.replacer.max_size ∧
          s.replacer.frame_ids.getD i (-1) = ((f : Nat) : Int)) →
        evictableR (unpinPg s p d).2.replacer ((f : Nat) : Int) = true)) := by
  refine ⟨?_, ?_, ?_⟩
  · intro hl
    rw [unpinPg, hl]
  · intro f hl hz
    rw [unpinPg, hl]
    simp [hz]
  · intro f hl hpos
    have hflt : f < s.pages.length := by
      apply lt_of_getD_ne
      intro hdef
      have h0 : (getPage s f).pin_count = 0 := by rw [getPage_eq, hdef]
      omega
    have hbody : unpinPg s p d =
        (true, { s with
          pages := s.pages.set f
            { getPage s f with
              pin_count := (getPage s f).pin_count - 1
              is_dirty := if (getPage s f).is_dirty then (getPage s f).is_dirty else d }
          replacer := if (getPage s f).pin_count - 1 = 0 then
              unpinR s.replacer ((f : Nat) : Int)
            else s.replacer }) := by
      rw [unpinPg, hl]
      simp [hpos]
    refine ⟨by rw [hbody], ?_, ?_, ?_, ?_, ?_⟩
    · simp only [hbody, getPage_eq]
      rw [getD_set_self _ _ _ _ hflt]
    · simp only [hbody, getPage_eq]
      rw [getD_set_self _ _ _ _ hflt]
      cases hdirty : s.pages.getD f { page_id := -1, pin_count := 0, is_dirty := false }
        |>.is_dirty <;> simp [getPage_eq, hdirty]
    · intro hgt
      rw [hbody]
      have : ¬((getPage s f).pin_count - 1 = 0) := by omega
      simp [this]
    · intro hone
      rw [hbody]
      simp [hone]
    · intro hone hwf hreg
      rw [hbody]
      simp only [hone]
      simpa using evictableR_unpinR s.replacer ((f : Nat) : Int) hwf hreg

/-- Witness for `unpinPg_spec`: a one-frame pool holding page 0 with pin
count 1; unpinning succeeds, drops the count to 0 and the frame becomes
evictable. -/
theorem unpinPg_spec_witness :
    (unpinPg (BPMI.mk 1 1 0 1 [Page.mk 0 1 false] [(0, 0)] []
        (ClockReplacer.mk [0] [true] [false] 1 0 1) []) 0 true).1 = true ∧
    evictableR (unpinPg (BPMI.mk 1 1 0 1 [Page.mk 0 1 false] [(0, 0)] []
        (ClockReplacer.mk [0] [true] [false] 1 0 1) []) 0 true).2.replacer 0 = true := by
  have h := (unpinPg_spec (BPMI.mk 1 1 0 1 [Page.mk 0 1 false] [(0, 0)] []
      (ClockReplacer.mk [0] [true] [false] 1 0 1) []) 0 true).2.2 0 (by decide) (by decide)
  exact ⟨h.1, by
    have := h.2.2.2.2.2 (by decide) ⟨by decide, by decide, by decide⟩
      ⟨0, by decide, by decide⟩
    simpa using this⟩

/-- C7: `DeletePage(page_id)`: not resident means deallocate and return true
with nothing else changed; resident and pinned means return false with the
whole state unchanged; resident and unpinned means the frame metadata is
reset, the frame index goes to the FRONT of the free list, the directory
entry is removed, deallocation is called, and the result is true (the
replacer is not notified). -/
theorem deletePg_spec (s : BPMI) (p : Int) :
    (lookupT s.page_table p = none →
      deletePg s p = (true, { s with deallocated := p :: s.deallocated })) ∧
    (∀ f, lookupT s.page_table p = some f → 0 < (getPage s f).pin_count →
      deletePg s p = (false, s)) ∧
    (∀ f, lookupT s.page_table p = some f → (getPage s f).pin_count = 0 →
      (deletePg s p).1 = true ∧
      getPage (deletePg s p).2 f = { page_id := -1, pin_count := 0, is_dirty := false } ∧
      (deletePg s p).2.free_list = f :: s.free_list ∧
      (deletePg s p).2.page_table = eraseT s.page_table p ∧
      lookupT (deletePg s p).2.page_table p = none ∧
      (deletePg s p).2.deallocated = p :: s.deallocated ∧
      (deletePg s p).2.replacer = s.replacer) := by
  refine ⟨?_, ?_, ?_⟩
  · intro hl
    rw [deletePg, hl]
  · intro f hl hpos
    rw [deletePg, hl]
    simp [hpos]
  · intro f hl hz
    have hbody : deletePg s p =
        (true, { s with
          pages := s.pages.set f { page_id := -1, pin_count := 0, is_dirty := false }
          free_list := f :: s.free_list
          page_table := eraseT s.page_table p
          deallocated := p :: s.deallocated }) := by
      rw [deletePg, hl]
      simp [hz]
    refine ⟨by rw [hbody], ?_, by rw [hbody], by rw [hbody],
      by rw [hbody]; exact lookupT_eraseT_self s.page_table p, by rw [hbody], by rw [hbody]⟩
    simp only [hbody, getPage_eq]
    by_cases hflt : f < s.pages.length
    · rw [getD_set_self _ _ _ _ hflt]
    · rw [List.getD_eq_getElem?_getD,
        List.getElem?_eq_none (by rw [List.length_set]; exact Nat.le_of_not_lt hflt)]
      rfl

/-- Witness for `deletePg_spec`: a one-frame pool holding unpinned page 0;
deleting it succeeds and pushes frame 0 onto the free list. -/
theorem deletePg_spec_witness :
    (deletePg (BPMI.mk 1 1 0 1 [Page.mk 0 0 true] [(0, 0)] []
        (ClockReplacer.mk [0] [false] [true] 1 0 1) []) 0).1 = true ∧
    (deletePg (BPMI.mk 1 1 0 1 [Page.mk 0 0 true] [(0, 0)] []
        (ClockReplacer.mk [0] [false] [true] 1 0 1) []) 0).2.free_list = [0] := by
  have h := (deletePg_spec (BPMI.mk 1 1 0 1 [Page.mk 0 0 true] [(0, 0)] []
      (ClockReplacer.mk [0] [false] [true] 1 0 1) []) 0).2.2 0 (by decide) (by decide)
  exact ⟨h.1, h.2.2.1⟩

/-! Concrete runs and the remaining per-operation claims. -/

/-- The pool-size-1 instance after one successful `NewPage`: page 0 resident
in frame 0 with pin count 1. -/
def c1State : BPMI :=
  { pool_size := 1, num_instances := 1, instance_index := 0, next_page_id := 1
    pages := [{ page_id := 0, pin_count := 1, is_dirty := true }]
    page_table := [(0, 0)], free_list := []
    replacer := { frame_ids := [0], pinned := [true], ref_bits := [false]
                  max_size := 1, now := 0, size := 1 }
    deallocated := [] }

/-- C1: refuted on the code (the spec itself flags the source behavior as a
bug, so the claim records the intended contract).  With pool size 1, `NewPage`
returns page 0 pinned once; the claim says `FetchPage(0)` must increment the
pin count to 2 and return the frame, but `FetchPgImp` (lines 129-131) returns
`nullptr` and leaves the pool unchanged whenever the hit frame's pin count is
positive. -/
theorem fetch_hit_pinned_refused :
    newPg 1 (initBPMI 1 1 0) = some (some (0, 0), c1State) ∧
    (getPage c1State 0).pin_count = 1 ∧
    fetchPg 1 c1State 0 = some (none, c1State) := by decide

/-- The second-chance scenario of C3 with pool size 2: fetch pages 5 (A) and
7 (B), unpin both, touch A (fetch and unpin again), then request a new page,
which must evict somebody. -/
def secondChanceRun : Option BPMI :=
  (fetchPg 1 (initBPMI 2 1 0) 5).bind (fun a =>
  (fetchPg 1 a.2 7).bind (fun b =>
  (fetchPg 1 (unpinPg (unpinPg b.2 5 false).2 7 false).2 5).bind (fun t =>
  (newPg 10 (unpinPg t.2 5 false).2).map (fun n => n.2))))

/-- C3, counterexample: after the scenario, page B (= 7) is STILL resident in
frame 1, so B was not evicted, contrary to the claim.  `Unpin` sets the
reference bit (clock_replacer.cpp line 88), so B's bit is 1 just like A's;
the sweep starting at slot 0 clears both bits in the first revolution and
takes slot 0 — A's frame — on the second. -/
theorem second_chance_counterexample :
    secondChanceRun.map (fun s => lookupT s.page_table 7) = some (some 1) := by decide

/-- C3, amended: in the scenario the victim is A, not B: afterwards A (= 5) is
no longer resident, B (= 7) is still resident in frame 1, and the new page
(id 0) occupies A's old frame 0. -/
theorem second_chance_evicts_first_fetched :
    secondChanceRun.map
        (fun s => (lookupT s.page_table 5, lookupT s.page_table 7, lookupT s.page_table 0)) =
      some (none, some 1, some 0) := by decide

/-- Iterated `AllocatePage`. -/
def allocAfter (s : BPMI) : Nat → BPMI
  | 0 => s
  | k + 1 => (allocatePage (allocAfter s k)).2

theorem allocAfter_num (s : BPMI) (k : Nat) :
    (allocAfter s k).num_instances = s.num_instances := by
  induction k with
  | zero => rfl
  | succ n ih => simpa [allocAfter, allocatePage] using ih

theorem allocAfter_next (pool num idx k : Nat) :
    (allocAfter (initBPMI pool num idx) k).next_page_id = (idx : Int) + k * num := by
  induction k with
  | zero => simp [allocAfter, initBPMI]
  | succ n ih =>
    show (allocatePage (allocAfter (initBPMI pool num idx) n)).2.next_page_id = _
    rw [allocatePage]
    show (allocAfter (initBPMI pool num idx) n).next_page_id +
      ((allocAfter (initBPMI pool num idx) n).num_instances : Int) = _
    rw [ih, allocAfter_num]
    show (idx : Int) + n * num + ((initBPMI pool num idx).num_instances : Int) = _
    push_cast [initBPMI]
    ring

/-- C5: the `k`-th id returned by `AllocatePage` on an instance constructed
with `(num_instances, instance_index) = (num, idx)` is `idx + k * num`, hence
every allocated id is congruent to `idx` modulo `num`; concretely, with
`num_instances = 4` and `instance_index = 2` the first three `NewPage` calls
return page ids 2, 6 and 10 (in frames 0, 1, 2). -/
theorem allocate_stride (pool num idx k : Nat) (hi : idx < num) :
    (allocatePage (allocAfter (initBPMI pool num idx) k)).1 = (idx : Int) + k * num ∧
    (allocatePage (allocAfter (initBPMI pool num idx) k)).1 % (num : Int) = (idx : Int) ∧
    ((newPg 1 (initBPMI 3 4 2)).bind (fun a => (newPg 1 a.2).bind (fun b =>
      (newPg 1 b.2).map (fun c => (a.1, b.1, c.1))))) =
      some (some (2, 0), some (6, 1), some (10, 2)) := by
  have h1 : (allocatePage (allocAfter (initBPMI pool num idx) k)).1 =
      (idx : Int) + k * num := allocAfter_next pool num idx k
  refine ⟨h1, ?_, by decide⟩
  have hlt : (idx : Int) < (num : Int) := by exact_mod_cast hi
  rw [h1, Int.add_mul_emod_self]
  exact Int.emod_eq_of_lt (Int.ofNat_nonneg idx) hlt

/-- Witness for `allocate_stride`: the second allocation of instance 2 of 4
returns 6, which is congruent to 2 modulo 4. -/
theorem allocate_stride_witness :
    (allocatePage (allocAfter (initBPMI 3 4 2) 1)).1 = (2 : Int) + 1 * 4 ∧
    (allocatePage (allocAfter (initBPMI 3 4 2) 1)).1 % (4 : Int) = (2 : Int) :=
  ⟨(allocate_stride 3 4 2 1 (by decide)).1, (allocate_stride 3 4 2 1 (by decide)).2.1⟩

theorem victimR_false_id {fuel : Nat} {r r2 : ClockReplacer}
    (h : victimR fuel r = some (none, r2)) : r2 = r := by
  rw [victimR] at h
  by_cases h0 : r.size = 0
  · rw [if_pos h0] at h
    simp only [Option.some.injEq, Prod.mk.injEq, true_and] at h
    exact h.symm
  · rw [if_neg h0] at h
    by_cases hpc : pinnedCount r = r.size
    · rw [if_pos hpc] at h
      simp only [Option.some.injEq, Prod.mk.injEq, true_and] at h
      exact h.symm
    · rw [if_neg hpc] at h
      cases hs : victimSweep fuel r with
      | none => rw [hs] at h; exact absurd h (by simp)
      | some pr =>
        obtain ⟨f, r1⟩ := pr
        rw [hs] at h
        simp at h

/-- C9: whenever `NewPgImp` fails (returns no frame, either because every
frame is pinned or because the free list is empty and the replacer has no
victim), the entire instance state — page-id counter included — is unchanged. -/
theorem newPg_fail_unchanged (fuel : Nat) (s s2 : BPMI)
    (h : newPg fuel s = some (none, s2)) : s2 = s := by
  rw [newPg] at h
  by_cases hall : s.pages.all (fun pg => 0 < pg.pin_count) = true
  · rw [if_pos hall] at h
    simp only [Option.some.injEq, Prod.mk.injEq, true_and] at h
    exact h.symm
  · rw [if_neg hall] at h
    cases hfl : s.free_list with
    | cons f rest =>
      rw [hfl] at h
      simp [newInstall] at h
    | nil =>
      rw [hfl] at h
      cases hv : victimR fuel s.replacer with
      | none => rw [hv] at h; exact absurd h (by simp)
      | some pr =>
        obtain ⟨ores, r⟩ := pr
        cases ores with
        | none =>
          rw [hv] at h
          simp only [Option.some.injEq, Prod.mk.injEq, true_and] at h
          rw [← h, victimR_false_id hv, ← hfl]
        | some vf =>
          rw [hv] at h
          simp [newInstall] at h

/-- Witness for `newPg_fail_unchanged`: on the fully pinned one-frame pool,
`NewPage` fails and the state is returned untouched. -/
theorem newPg_fail_unchanged_witness :
    c1State = c1State ∧ newPg 1 c1State = some (none, c1State) :=
  ⟨newPg_fail_unchanged 1 c1State c1State (by decide), by decide⟩

/-! Toolkit for the page-table association list, used by the reachability
invariant below. -/

theorem lookupT_mem {t : List (Int × Nat)} {p : Int} {f : Nat}
    (h : lookupT t p = some f) : (p, f) ∈ t := by
  rw [lookupT] at h
  cases hf : t.find? (fun e => e.1 == p) with
  | none => rw [hf] at h; cases h
  | some e =>
    rw [hf] at h
    have hkey : e.1 = p := by have := List.find?_some hf; simpa using this
    have hmem := List.mem_of_find?_eq_some hf
    have hval : e.2 = f := by simpa using h
    have : e = (p, f) := Prod.ext hkey hval
    rwa [this] at hmem

theorem lookupT_none {t : List (Int × Nat)} {p : Int}
    (h : lookupT t p = none) : ∀ e ∈ t, e.1 ≠ p := by
  intro e he
  rw [lookupT, Option.map_eq_none'] at h
  have := List.find?_eq_none.mp h e he
  simpa using this

theorem mem_eraseT {t : List (Int × Nat)} {p : Int} {e : Int × Nat} :
    e ∈ eraseT t p ↔ e ∈ t ∧ e.1 ≠ p := by
  simp [eraseT, List.mem_filter]

theorem eraseT_eq_self {t : List (Int × Nat)} {p : Int}
    (h : ∀ e ∈ t, e.1 ≠ p) : eraseT t p = t := by
  apply List.filter_eq_self.mpr
  intro e he
  simpa using h e he

theorem keys_eraseT_nodup {t : List (Int × Nat)} {p : Int}
    (h : (t.map Prod.fst).Nodup) : ((eraseT t p).map Prod.fst).Nodup :=
  List.Nodup.sublist (List.Sublist.map Prod.fst (List.filter_sublist t)) h

theorem keys_eraseT_ne (t : List (Int × Nat)) (p : Int) :
    ∀ e ∈ eraseT t p, e.1 ≠ p := fun _ he => (mem_eraseT.mp he).2

theorem keys_insertT_nodup {t : List (Int × Nat)} {p : Int} {f : Nat}
    (h : (t.map Prod.fst).Nodup) : ((insertT t p f).map Prod.fst).Nodup := by
  rw [insertT, List.map_cons, List.nodup_cons]
  refine ⟨?_, keys_eraseT_nodup h⟩
  intro hp
  obtain ⟨e, he, hk⟩ := List.mem_map.mp hp
  exact keys_eraseT_ne t p e he hk

theorem length_eraseT_mem {t : List (Int × Nat)} {p : Int} {f : Nat}
    (hnd : (t.map Prod.fst).Nodup) (hm : (p, f) ∈ t) :
    (eraseT t p).length + 1 = t.length := by
  induction t with
  | nil => cases hm
  | cons e rest ih =>
    rw [List.map_cons, List.nodup_cons] at hnd
    by_cases hk : e.1 = p
    · have hrest : eraseT rest p = rest := by
        apply eraseT_eq_self
        intro x hx hxp
        exact hnd.1 (hk ▸ hxp ▸ List.mem_map.mpr ⟨x, hx, rfl⟩)
      have : eraseT (e :: rest) p = eraseT rest p := by
        simp [eraseT, List.filter_cons, hk]
      rw [this, hrest]
      simp
    · have hm2 : (p, f) ∈ rest := by
        cases List.mem_cons.mp hm with
        | inl he => exact absurd (congrArg Prod.fst he).symm hk
        | inr hr => exact hr
      have : eraseT (e :: rest) p = e :: eraseT rest p := by
        simp [eraseT, List.filter_cons, hk]
      rw [this, List.length_cons, List.length_cons, ← ih hnd.2 hm2]

theorem key_functional {t : List (Int × Nat)} (hnd : (t.map Prod.fst).Nodup)
    {q : Int} {a b : Nat} (ha : (q, a) ∈ t) (hb : (q, b) ∈ t) : a = b := by
  induction t with
  | nil => cases ha
  | cons e rest ih =>
    rw [List.map_cons, List.nodup_cons] at hnd
    cases List.mem_cons.mp ha with
    | inl hea =>
      cases List.mem_cons.mp hb with
      | inl heb => rw [← hea] at heb; exact (Prod.mk.injEq .. ▸ heb.symm).2
      | inr hrb =>
        exfalso
        apply hnd.1
        have : e.1 = q := (congrArg Prod.fst hea.symm)
        rw [this]
        exact List.mem_map.mpr ⟨(q, b), hrb, rfl⟩
    | inr hra =>
      cases List.mem_cons.mp hb with
      | inl heb =>
        exfalso
        apply hnd.1
        have : e.1 = q := (congrArg Prod.fst heb.symm)
        rw [this]
        exact List.mem_map.mpr ⟨(q, a), hra, rfl⟩
      | inr hrb => exact ih hnd.2 hra hrb

/-! Effect lemmas for the replacer operations, used by the reachability
invariant. -/

theorem pinR_fields (r : ClockReplacer) (v : Int) :
    (pinR r v).frame_ids.length = r.frame_ids.length ∧
    (pinR r v).pinned.length = r.pinned.length ∧
    (pinR r v).ref_bits.length = r.ref_bits.length ∧
    (pinR r v).max_size = r.max_size := by
  rw [pinR]
  cases slotOf r v with
  | some i => simp
  | none =>
    cases slotOf r (-1) with
    | some i => simp
    | none => simp

theorem unpinR_fields (r : ClockReplacer) (v : Int) :
    (unpinR r v).frame_ids.length = r.frame_ids.length ∧
    (unpinR r v).pinned.length = r.pinned.length ∧
    (unpinR r v).ref_bits.length = r.ref_bits.length ∧
    (unpinR r v).max_size = r.max_size := by
  cases hs : slotOf r v with
  | some i =>
    have hred0 : unpinR r v = if r.pinned.getD i false = true then
        { r with ref_bits := r.ref_bits.set i true, pinned := r.pinned.set i false }
      else r := by
      rw [unpinR, hs]
    by_cases hp : r.pinned.getD i false = true
    · rw [hred0, if_pos hp]
      simp
    · rw [hred0, if_neg hp]
      simp
  | none =>
    cases he : slotOf r (-1) with
    | some i =>
      have hred : unpinR r v =
          { r with frame_ids := r.frame_ids.set i v
                   pinned := r.pinned.set i false
                   ref_bits := r.ref_bits.set i false
                   size := min (r.size + 1) r.max_size } := by
        rw [unpinR, hs, he]
      rw [hred]
      simp
    | none =>
      have hred : unpinR r v = r := by rw [unpinR, hs, he]
      rw [hred]
      simp

/-- Every slot that is evictable after `Pin(v)` either was already evictable
with the same frame id, or holds `v` itself. -/
theorem pinR_evictable_from (r : ClockReplacer) (v : Int) (j : Nat)
    (h1 : (pinR r v).frame_ids.getD j (-1) ≠ -1)
    (h2 : (pinR r v).pinned.getD j false = false) :
    ((pinR r v).frame_ids.getD j (-1) = r.frame_ids.getD j (-1) ∧
      r.pinned.getD j false = false) ∨
    (pinR r v).frame_ids.getD j (-1) = v := by
  cases hs : slotOf r v with
  | some i =>
    have hred : pinR r v =
        { r with pinned := r.pinned.set i true, ref_bits := r.ref_bits.set i true } := by
      rw [pinR, hs]
    rw [hred] at h1 h2 ⊢
    simp only [] at h1 h2
    by_cases hij : i = j
    · subst hij
      by_cases hlt : i < r.pinned.length
      · rw [getD_set_self _ _ _ _ hlt] at h2; cases h2
      · left
        rw [List.getD_eq_getElem?_getD,
          List.getElem?_eq_none (by rw [List.length_set]; exact Nat.le_of_not_lt hlt)] at h2
        refine ⟨rfl, ?_⟩
        show r.pinned.getD i false = false
        rw [List.getD_eq_getElem?_getD, List.getElem?_eq_none (Nat.le_of_not_lt hlt)]
        exact h2
    · left
      exact ⟨rfl, by rw [getD_set_ne _ _ _ hij] at h2; exact h2⟩
  | none =>
    cases he : slotOf r (-1) with
    | some i =>
      have hred : pinR r v =
          { r with frame_ids := r.frame_ids.set i v
                   pinned := r.pinned.set i true
                   ref_bits := r.ref_bits.set i false
                   size := min (r.size + 1) r.max_size } := by
        rw [pinR, hs, he]
      rw [hred] at h1 h2 ⊢
      simp only [] at h1 h2
      by_cases hij : i = j
      · subst hij
        by_cases hlt : i < r.frame_ids.length
        · right
          exact getD_set_self _ _ _ _ hlt
        · left
          refine ⟨?_, ?_⟩
          · show (r.frame_ids.set i v).getD i (-1) = r.frame_ids.getD i (-1)
            rw [List.getD_eq_getElem?_getD,
              List.getElem?_eq_none (by rw [List.length_set]; exact Nat.le_of_not_lt hlt),
              List.getD_eq_getElem?_getD, List.getElem?_eq_none (Nat.le_of_not_lt hlt)]
          · by_cases hplt : i < r.pinned.length
            · rw [getD_set_self _ _ _ _ hplt] at h2; cases h2
            · show r.pinned.getD i false = false
              rw [List.getD_eq_getElem?_getD,
                List.getElem?_eq_none (by rw [List.length_set]; exact Nat.le_of_not_lt hplt)]
                at h2
              rw [List.getD_eq_getElem?_getD, List.getElem?_eq_none (Nat.le_of_not_lt hplt)]
              exact h2
      · left
        refine ⟨?_, ?_⟩
        · show (r.frame_ids.set i v).getD j (-1) = r.frame_ids.getD j (-1)
          exact getD_set_ne _ _ _ hij
        · rw [getD_set_ne _ _ _ hij] at h2
          exact h2
    | none =>
      have hred : pinR r v = r := by rw [pinR, hs, he]
      rw [hred] at h1 h2 ⊢
      exact Or.inl ⟨rfl, h2⟩

/-- Every slot that is evictable after `Unpin(v)` either was already evictable
with the same frame id, or holds `v` itself. -/
theorem unpinR_evictable_from (r : ClockReplacer) (v : Int) (j : Nat)
    (h1 : (unpinR r v).frame_ids.getD j (-1) ≠ -1)
    (h2 : (unpinR r v).pinned.getD j false = false) :
    ((unpinR r v).frame_ids.getD j (-1) = r.frame_ids.getD j (-1) ∧
      r.pinned.getD j false = false) ∨
    (unpinR r v).frame_ids.getD j (-1) = v := by
  cases hs : slotOf r v with
  | some i =>
    have hred0 : unpinR r v = if r.pinned.getD i false = true then
        { r with ref_bits := r.ref_bits.set i true, pinned := r.pinned.set i false }
      else r := by
      rw [unpinR, hs]
    by_cases hp : r.pinned.getD i false = true
    · have hred : unpinR r v =
          { r with ref_bits := r.ref_bits.set i true, pinned := r.pinned.set i false } := by
        rw [hred0, if_pos hp]
      rw [hred] at h1 h2 ⊢
      simp only [] at h1 h2
      by_cases hij : i = j
      · subst hij
        right
        exact slotOf_val hs
      · left
        exact ⟨rfl, by rw [getD_set_ne _ _ _ hij] at h2; exact h2⟩
    · have hred : unpinR r v = r := by rw [hred0, if_neg hp]
      rw [hred] at h1 h2 ⊢
      exact Or.inl ⟨rfl, h2⟩
  | none =>
    cases he : slotOf r (-1) with
    | some i =>
      have hred : unpinR r v =
          { r with frame_ids := r.frame_ids.set i v
                   pinned := r.pinned.set i false
                   ref_bits := r.ref_bits.set i false
                   size := min (r.size + 1) r.max_size } := by
        rw [unpinR, hs, he]
      rw [hred] at h1 h2 ⊢
      simp only [] at h1 h2
      by_cases hij : i = j
      · subst hij
        by_cases hlt : i < r.frame_ids.length
        · right
          exact getD_set_self _ _ _ _ hlt
        · exfalso
          apply h1
          show (r.frame_ids.set i v).getD i (-1) = -1
          rw [List.getD_eq_getElem?_getD,
            List.getElem?_eq_none (by rw [List.length_set]; exact Nat.le_of_not_lt hlt)]
          rfl
      · left
        refine ⟨?_, ?_⟩
        · show (r.frame_ids.set i v).getD j (-1) = r.frame_ids.getD j (-1)
          exact getD_set_ne _ _ _ hij
        · rw [getD_set_ne _ _ _ hij] at h2
          exact h2
    | none =>
      have hred : unpinR r v = r := by rw [unpinR, hs, he]
      rw [hred] at h1 h2 ⊢
      exact Or.inl ⟨rfl, h2⟩

/-- A successful sweep picked an unpinned, occupied slot `i`, emptied it, and
changed nothing else except reference bits and the hand. -/
theorem victimSweep_spec {fuel : Nat} {r r2 : ClockReplacer} {v : Int}
    (h : victimSweep fuel r = some (v, r2)) :
    ∃ i, r.frame_ids.getD i (-1) = v ∧ v ≠ -1 ∧ r.pinned.getD i false = false ∧
      r2.frame_ids = r.frame_ids.set i (-1) ∧ r2.pinned = r.pinned ∧
      r2.ref_bits.length = r.ref_bits.length ∧ r2.max_size = r.max_size ∧
      r2.size = r.size := by
  induction fuel generalizing r with
  | zero => cases h
  | succ n ih =>
    rw [victimSweep] at h
    by_cases hg : (r.pinned.getD r.now false || r.frame_ids.getD r.now (-1) == -1) = true
    · rw [if_pos hg] at h
      obtain ⟨i, ha, hb, hc, hd, hp, hr, hm, hsz⟩ := ih h
      exact ⟨i, ha, hb, hc, hd, hp, hr, hm, hsz⟩
    · rw [if_neg hg] at h
      by_cases hrb : r.ref_bits.getD r.now false = true
      · rw [if_pos hrb] at h
        obtain ⟨i, ha, hb, hc, hd, hp, hr, hm, hsz⟩ := ih h
        exact ⟨i, ha, hb, hc, hd, hp, by rw [hr, List.length_set], hm, hsz⟩
      · rw [if_neg hrb] at h
        simp only [Option.some.injEq, Prod.mk.injEq] at h
        obtain ⟨hv, hr2⟩ := h
        simp only [Bool.or_eq_true, not_or, beq_iff_eq] at hg
        refine ⟨r.now, hv, ?_, ?_, ?_, ?_, ?_, ?_, ?_⟩
        · rw [← hv]; exact hg.2
        · simpa using hg.1
        · rw [← hr2]
        · rw [← hr2]
        · rw [← hr2]
        · rw [← hr2]
        · rw [← hr2]

/-- A `Victim` call that returns true went through the sweep. -/
theorem victimR_some {fuel : Nat} {r r2 : ClockReplacer} {v : Int}
    (h : victimR fuel r = some (some v, r2)) :
    ∃ i, r.frame_ids.getD i (-1) = v ∧ v ≠ -1 ∧ r.pinned.getD i false = false ∧
      r2.frame_ids = r.frame_ids.set i (-1) ∧ r2.pinned = r.pinned ∧
      r2.ref_bits.length = r.ref_bits.length ∧ r2.max_size = r.max_size := by
  rw [victimR] at h
  by_cases h0 : r.size = 0
  · rw [if_pos h0] at h; simp at h
  · rw [if_neg h0] at h
    by_cases hpc : pinnedCount r = r.size
    · rw [if_pos hpc] at h; simp at h
    · rw [if_neg hpc] at h
      cases hs : victimSweep fuel r with
      | none => rw [hs] at h; exact absurd h (by simp)
      | some pr =>
        obtain ⟨f, r1⟩ := pr
        rw [hs] at h
        simp only [Option.some.injEq, Prod.mk.injEq] at h
        obtain ⟨hf, hr1⟩ := h
        obtain ⟨i, ha, hb, hc, hd, hp, hr, hm, _⟩ := victimSweep_spec hs
        exact ⟨i, by rw [← hf.symm] at ha; exact ha, hf ▸ hb, hc,
          hr1 ▸ hd, hr1 ▸ hp, hr1 ▸ hr, hr1 ▸ hm⟩

/-- The coupled invariant of a buffer pool instance.  Field `hsize` is the
claimed property (I6); the remaining fields are the auxiliary facts needed to
push it through every operation: table keys are allocated-range ids, frames on
the free list carry the `INVALID` id, table keys are unique, the free list has
no duplicates, every evictable replacer slot points at a frame that is either
free or resident, the replacer arrays are well-formed, the allocation counter
is non-negative, and the frame array has length `pool_size`. -/
structure Inv (s : BPMI) : Prop where
  hnum : 0 < s.num_instances
  hsize : s.pool_size = s.free_list.length + s.page_table.length
  htab : ∀ e ∈ s.page_table, 0 ≤ e.1 ∧ e.1 < s.next_page_id ∧ e.2 < s.pool_size ∧
    (getPage s e.2).page_id = e.1
  hfree : ∀ f ∈ s.free_list, f < s.pool_size ∧ (getPage s f).page_id = -1
  hkeys : (s.page_table.map Prod.fst).Nodup
  hfnd : s.free_list.Nodup
  hrep : ∀ i, i < s.replacer.frame_ids.length →
    s.replacer.frame_ids.getD i (-1) ≠ -1 →
    s.replacer.pinned.getD i false = false →
    0 ≤ s.replacer.frame_ids.getD i (-1) ∧
    ((s.replacer.frame_ids.getD i (-1)).toNat ∈ s.free_list ∨
      ∃ q, (q, (s.replacer.frame_ids.getD i (-1)).toNat) ∈ s.page_table)
  hwf : ReplacerWF s.replacer
  hnext : 0 ≤ s.next_page_id
  hplen : s.pages.length = s.pool_size

theorem getD_replicate_any {α : Type} (n i : Nat) (a d : α) :
    (List.replicate n a).getD i d = a ∨ (List.replicate n a).getD i d = d := by
  rw [List.getD_eq_getElem?_getD, List.getElem?_replicate]
  by_cases h : i < n <;> simp [h]

theorem inv_init (pool num idx : Nat) (hn : 0 < num) : Inv (initBPMI pool num idx) := by
  refine ⟨hn, ?_, ?_, ?_, ?_, ?_, ?_, ?_, ?_, ?_⟩
  · show pool = (List.range pool).length + ([] : List (Int × Nat)).length
    simp
  · intro e he
    cases he
  · intro f hf
    refine ⟨List.mem_range.mp hf, ?_⟩
    show ((List.replicate pool ({ page_id := -1, pin_count := 0, is_dirty := false } : Page)).getD
      f { page_id := -1, pin_count := 0, is_dirty := false }).page_id = -1
    cases getD_replicate_any pool f ({ page_id := -1, pin_count := 0, is_dirty := false } : Page)
        { page_id := -1, pin_count := 0, is_dirty := false } with
    | inl h => rw [h]
    | inr h => rw [h]
  · exact List.Pairwise.nil
  · exact List.nodup_range pool
  · intro i hi hne hpf
    exfalso
    apply hne
    show ((List.replicate pool (-1 : Int)).getD i (-1)) = -1
    cases getD_replicate_any pool i (-1 : Int) (-1) with
    | inl h => exact h
    | inr h => exact h
  · refine ⟨?_, ?_, ?_⟩
    · show (List.replicate pool (-1 : Int)).length = pool
      simp
    · show (List.replicate pool false).length = pool
      simp
    · show (List.replicate pool false).length = pool
      simp
  · exact Int.ofNat_nonneg idx
  · show (List.replicate pool ({ page_id := -1, pin_count := 0, is_dirty := false } : Page)).length
      = pool
    simp

/-- Installing a fresh page-table entry `p -> f` (the common ending of the
four successful `FetchPage`/`NewPage` paths) preserves the invariant, given
that the books already balance for the frame `f` being recycled: the table
`t2` no longer mentions `p` or frame `f`, the free list no longer holds `f`,
and every evictable replacer slot points into the free list, into `t2`, or at
`f` itself. -/
theorem inv_install (s : BPMI) (N : Int) (t2 : List (Int × Nat)) (p : Int) (f : Nat) (dr : Bool)
    (hnum : 0 < s.num_instances)
    (hsize : s.pool_size = s.free_list.length + (t2.length + 1))
    (htab2 : ∀ e ∈ t2, 0 ≤ e.1 ∧ e.1 < N ∧ e.2 < s.pool_size ∧
      (getPage s e.2).page_id = e.1 ∧ e.2 ≠ f)
    (hp0 : 0 ≤ p) (hpN : p < N)
    (hpt : ∀ e ∈ t2, e.1 ≠ p)
    (hfree2 : ∀ g ∈ s.free_list, g < s.pool_size ∧ (getPage s g).page_id = -1 ∧ g ≠ f)
    (hkeys2 : (t2.map Prod.fst).Nodup)
    (hfnd2 : s.free_list.Nodup)
    (hrep2 : ∀ i, i < s.replacer.frame_ids.length →
      s.replacer.frame_ids.getD i (-1) ≠ -1 →
      s.replacer.pinned.getD i false = false →
      0 ≤ s.replacer.frame_ids.getD i (-1) ∧
      ((s.replacer.frame_ids.getD i (-1)).toNat ∈ s.free_list ∨
        (∃ q, (q, (s.replacer.frame_ids.getD i (-1)).toNat) ∈ t2) ∨
        (s.replacer.frame_ids.getD i (-1)).toNat = f))
    (hwf2 : ReplacerWF s.replacer)
    (hN : 0 ≤ N)
    (hplen2 : s.pages.length = s.pool_size)
    (hf : f < s.pool_size) :
    Inv { s with next_page_id := N
                 pages := s.pages.set f { page_id := p, pin_count := 1, is_dirty := dr }
                 page_table := insertT t2 p f
                 replacer := pinR s.replacer ((f : Nat) : Int) } := by
  have hET : eraseT t2 p = t2 := eraseT_eq_self hpt
  have hIT : insertT t2 p f = (p, f) :: t2 := by rw [insertT, hET]
  have hflen : f < s.pages.length := hplen2 ▸ hf
  refine ⟨hnum, ?_, ?_, ?_, ?_, hfnd2, ?_, ?_, hN, ?_⟩
  · show s.pool_size = s.free_list.length + (insertT t2 p f).length
    rw [hIT, List.length_cons]
    exact hsize
  · intro e he
    rw [hIT] at he
    cases List.mem_cons.mp he with
    | inl hepf =>
      subst hepf
      refine ⟨hp0, hpN, hf, ?_⟩
      show ((s.pages.set f _).getD f _).page_id = p
      rw [getD_set_self _ _ _ _ hflen]
    | inr het =>
      obtain ⟨he0, heN, helt, hepg, henf⟩ := htab2 e het
      refine ⟨he0, heN, helt, ?_⟩
      show ((s.pages.set f _).getD e.2 _).page_id = e.1
      rw [getD_set_ne _ _ _ (fun hfe => henf hfe.symm)]
      exact hepg
  · intro g hg
    obtain ⟨hglt, hgpg, hgnf⟩ := hfree2 g hg
    refine ⟨hglt, ?_⟩
    show ((s.pages.set f _).getD g _).page_id = -1
    rw [getD_set_ne _ _ _ (fun hfg => hgnf hfg.symm)]
    exact hgpg
  · exact keys_insertT_nodup hkeys2
  · intro i hi hne hpf
    have hlen := (pinR_fields s.replacer ((f : Nat) : Int)).1
    show 0 ≤ (pinR s.replacer _).frame_ids.getD i (-1) ∧ _
    cases pinR_evictable_from s.replacer ((f : Nat) : Int) i hne hpf with
    | inl hold =>
      obtain ⟨heq, hpold⟩ := hold
      have hne2 : s.replacer.frame_ids.getD i (-1) ≠ -1 := by rw [← heq]; exact hne
      have hi2 : i < s.replacer.frame_ids.length := by rw [← hlen]; exact hi
      obtain ⟨h0, hdis⟩ := hrep2 i hi2 hne2 hpold
      rw [heq]
      refine ⟨h0, ?_⟩
      cases hdis with
      | inl hinfree => exact Or.inl hinfree
      | inr hrest =>
        cases hrest with
        | inl hint =>
          obtain ⟨q, hq⟩ := hint
          refine Or.inr ⟨q, ?_⟩
          rw [hIT]
          exact List.mem_cons.mpr (Or.inr hq)
        | inr hisf =>
          refine Or.inr ⟨p, ?_⟩
          rw [hIT, hisf]
          exact List.mem_cons.mpr (Or.inl rfl)
    | inr hvf =>
      rw [hvf]
      refine ⟨Int.ofNat_nonneg f, ?_⟩
      refine Or.inr ⟨p, ?_⟩
      rw [hIT, Int.toNat_ofNat]
      exact List.mem_cons.mpr (Or.inl rfl)
  · obtain ⟨ha, hb, hc, hd⟩ := pinR_fields s.replacer ((f : Nat) : Int)
    obtain ⟨hx, hy, hz⟩ := hwf2
    exact ⟨by rw [ha, hd]; exact hx, by rw [hb, hd]; exact hy, by rw [hc, hd]; exact hz⟩
  · show (s.pages.set f _).length = s.pool_size
    rw [List.length_set]
    exact hplen2

theorem getD_set_oob {α : Type} (l : List α) {i : Nat} (j : Nat) (a d : α)
    (h : ¬ i < l.length) : (l.set i a).getD j d = l.getD j d := by
  rw [List.getD_eq_getElem?_getD, List.getD_eq_getElem?_getD, List.getElem?_set]
  by_cases hij : i = j
  · subst hij
    rw [if_pos rfl, if_neg h, List.getElem?_eq_none (Nat.le_of_not_lt h)]
  · rw [if_neg hij]

theorem getPage_set_page_id (s : BPMI) (f g : Nat) (pg : Page)
    (hpg : pg.page_id = (getPage s f).page_id) :
    ((s.pages.set f pg).getD g { page_id := -1, pin_count := 0, is_dirty := false }).page_id =
      (getPage s g).page_id := by
  by_cases hfg : f = g
  · subst hfg
    by_cases hlt : f < s.pages.length
    · rw [getD_set_self _ _ _ _ hlt, hpg]
    · rw [getD_set_oob _ _ _ _ hlt, getPage_eq]
  · rw [getD_set_ne _ _ _ hfg, getPage_eq]

/-- Updating one frame's metadata without changing its page id, and notifying
the replacer about a resident-or-free frame, preserves the invariant.  This
covers `FlushPgImp`, `UnpinPgImp` and the hit path of `FetchPgImp`. -/
theorem inv_meta_update (s : BPMI) (f : Nat) (pg : Page) (r2 : ClockReplacer)
    (hpg : pg.page_id = (getPage s f).page_id)
    (hr : r2 = s.replacer ∨
      ∃ v, (r2 = unpinR s.replacer v ∨ r2 = pinR s.replacer v) ∧ 0 ≤ v ∧
        (v.toNat ∈ s.free_list ∨ ∃ q, (q, v.toNat) ∈ s.page_table))
    (hI : Inv s) :
    Inv { s with pages := s.pages.set f pg, replacer := r2 } := by
  refine ⟨hI.hnum, hI.hsize, ?_, ?_, hI.hkeys, hI.hfnd, ?_, ?_, hI.hnext, ?_⟩
  · intro e he
    obtain ⟨h0, hN, hlt, hpid⟩ := hI.htab e he
    refine ⟨h0, hN, hlt, ?_⟩
    show ((s.pages.set f pg).getD e.2 _).page_id = e.1
    rw [getPage_set_page_id s f e.2 pg hpg]
    exact hpid
  · intro g hg
    obtain ⟨hlt, hpid⟩ := hI.hfree g hg
    refine ⟨hlt, ?_⟩
    show ((s.pages.set f pg).getD g _).page_id = -1
    rw [getPage_set_page_id s f g pg hpg]
    exact hpid
  · intro i hi hne hpf
    cases hr with
    | inl hsame =>
      rw [hsame] at hi hne hpf ⊢
      exact hI.hrep i hi hne hpf
    | inr hex =>
      obtain ⟨v, hop, hv0, hvloc⟩ := hex
      cases hop with
      | inl hunp =>
        rw [hunp] at hi hne hpf ⊢
        have hlen := (unpinR_fields s.replacer v).1
        cases unpinR_evictable_from s.replacer v i hne hpf with
        | inl hold =>
          obtain ⟨heq, hpold⟩ := hold
          rw [heq]
          exact hI.hrep i (by rw [← hlen]; exact hi) (by rw [← heq]; exact hne) hpold
        | inr hvv =>
          rw [hvv]
          exact ⟨hv0, hvloc⟩
      | inr hpin =>
        rw [hpin] at hi hne hpf ⊢
        have hlen := (pinR_fields s.replacer v).1
        cases pinR_evictable_from s.replacer v i hne hpf with
        | inl hold =>
          obtain ⟨heq, hpold⟩ := hold
          rw [heq]
          exact hI.hrep i (by rw [← hlen]; exact hi) (by rw [← heq]; exact hne) hpold
        | inr hvv =>
          rw [hvv]
          exact ⟨hv0, hvloc⟩
  · cases hr with
    | inl hsame => rw [hsame]; exact hI.hwf
    | inr hex =>
      obtain ⟨v, hop, _, _⟩ := hex
      obtain ⟨hx, hy, hz⟩ := hI.hwf
      cases hop with
      | inl hunp =>
        obtain ⟨ha, hb, hc, hd⟩ := unpinR_fields s.replacer v
        rw [hunp]
        exact ⟨by rw [ha, hd]; exact hx, by rw [hb, hd]; exact hy, by rw [hc, hd]; exact hz⟩
      | inr hpin =>
        obtain ⟨ha, hb, hc, hd⟩ := pinR_fields s.replacer v
        rw [hpin]
        exact ⟨by rw [ha, hd]; exact hx, by rw [hb, hd]; exact hy, by rw [hc, hd]; exact hz⟩
  · show (s.pages.set f pg).length = s.pool_size
    rw [List.length_set]
    exact hI.hplen

theorem inv_flushPg (s : BPMI) (p : Int) (hI : Inv s) : Inv (flushPg s p).2 := by
  rw [flushPg]
  cases hl : lookupT s.page_table p with
  | none => exact hI
  | some f =>
    exact inv_meta_update s f { getPage s f with is_dirty := false } s.replacer rfl
      (Or.inl rfl) hI

theorem inv_unpinPg (s : BPMI) (p : Int) (d : Bool) (hI : Inv s) : Inv (unpinPg s p d).2 := by
  cases hl : lookupT s.page_table p with
  | none =>
    have hbody : (unpinPg s p d).2 = s := by rw [unpinPg, hl]
    rw [hbody]
    exact hI
  | some f =>
    by_cases hpin : 0 < (getPage s f).pin_count
    · have hbody : (unpinPg s p d).2 = { s with
          pages := s.pages.set f
            { getPage s f with
              pin_count := (getPage s f).pin_count - 1
              is_dirty := if (getPage s f).is_dirty then (getPage s f).is_dirty else d }
          replacer := if (getPage s f).pin_count - 1 = 0 then
              unpinR s.replacer ((f : Nat) : Int)
            else s.replacer } := by
        rw [unpinPg, hl]
        simp [hpin]
      rw [hbody]
      refine inv_meta_update s f _ _ rfl ?_ hI
      by_cases hz : (getPage s f).pin_count - 1 = 0
      · rw [if_pos hz]
        refine Or.inr ⟨((f : Nat) : Int), Or.inl rfl, Int.ofNat_nonneg f, Or.inr ⟨p, ?_⟩⟩
        rw [Int.toNat_ofNat]
        exact lookupT_mem hl
      · rw [if_neg hz]
        exact Or.inl rfl
    · have hbody : (unpinPg s p d).2 = s := by
        rw [unpinPg, hl]
        simp [hpin]
      rw [hbody]
      exact hI

theorem inv_deletePg (s : BPMI) (p : Int) (hI : Inv s) : Inv (deletePg s p).2 := by
  cases hl : lookupT s.page_table p with
  | none =>
    have hbody : (deletePg s p).2 = { s with deallocated := p :: s.deallocated } := by
      rw [deletePg, hl]
    rw [hbody]
    exact ⟨hI.hnum, hI.hsize, hI.htab, hI.hfree, hI.hkeys, hI.hfnd, hI.hrep, hI.hwf,
      hI.hnext, hI.hplen⟩
  | some f =>
    have hmem : (p, f) ∈ s.page_table := lookupT_mem hl
    obtain ⟨hp0, hpN, hflt, hfpid⟩ := hI.htab (p, f) hmem
    by_cases hpin : 0 < (getPage s f).pin_count
    · have hbody : (deletePg s p).2 = s := by
        rw [deletePg, hl]
        simp [hpin]
      rw [hbody]
      exact hI
    · have hbody : (deletePg s p).2 = { s with
          pages := s.pages.set f { page_id := -1, pin_count := 0, is_dirty := false }
          free_list := f :: s.free_list
          page_table := eraseT s.page_table p
          deallocated := p :: s.deallocated } := by
        rw [deletePg, hl]
        simp [hpin]
      rw [hbody]
      have hfnfree : f ∉ s.free_list := by
        intro hin
        have := (hI.hfree f hin).2
        rw [hfpid] at this
        omega
      have hfree_ne : ∀ g ∈ s.free_list, g ≠ f := by
        intro g hg hgf
        exact hfnfree (hgf ▸ hg)
      refine ⟨hI.hnum, ?_, ?_, ?_, keys_eraseT_nodup hI.hkeys, ?_, ?_, hI.hwf,
        hI.hnext, ?_⟩
      · show s.pool_size = (f :: s.free_list).length + (eraseT s.page_table p).length
        have := length_eraseT_mem hI.hkeys hmem
        rw [List.length_cons]
        rw [hI.hsize]
        omega
      · intro e he
        obtain ⟨hemem, hekey⟩ := mem_eraseT.mp he
        obtain ⟨h0, hN, hlt, hpid⟩ := hI.htab e hemem
        have henf : e.2 ≠ f := by
          intro hef
          apply hekey
          rw [← hpid, hef, hfpid]
        refine ⟨h0, hN, hlt, ?_⟩
        show ((s.pages.set f _).getD e.2 _).page_id = e.1
        rw [getD_set_ne _ _ _ (fun hfe => henf hfe.symm)]
        exact hpid
      · intro g hg
        cases List.mem_cons.mp hg with
        | inl hgf =>
          subst hgf
          refine ⟨hflt, ?_⟩
          show ((s.pages.set g _).getD g _).page_id = -1
          rw [getD_set_self _ _ _ _ (hI.hplen ▸ hflt)]
        | inr hgfree =>
          obtain ⟨hglt, hgpid⟩ := hI.hfree g hgfree
          refine ⟨hglt, ?_⟩
          show ((s.pages.set f _).getD g _).page_id = -1
          rw [getD_set_ne _ _ _ (fun hfg => (hfree_ne g hgfree) hfg.symm)]
          exact hgpid
      · exact List.nodup_cons.mpr ⟨hfnfree, hI.hfnd⟩
      · intro i hi hne hpf
        obtain ⟨h0, hdis⟩ := hI.hrep i hi hne hpf
        refine ⟨h0, ?_⟩
        cases hdis with
        | inl hinfree => exact Or.inl (List.mem_cons.mpr (Or.inr hinfree))
        | inr hint =>
          obtain ⟨q, hq⟩ := hint
          by_cases hqp : q = p
          · subst hqp
            have := key_functional hI.hkeys hq hmem
            rw [this]
            exact Or.inl (List.mem_cons.mpr (Or.inl rfl))
          · exact Or.inr ⟨q, mem_eraseT.mpr ⟨hq, hqp⟩⟩
      · show (s.pages.set f _).length = s.pool_size
        rw [List.length_set]
        exact hI.hplen

/-- What a successful `Victim` call yields in an invariant state with an
empty free list: the victim frame is resident under a unique page id `q`, and
every slot still evictable afterwards points into `eraseT page_table q` or at
the victim frame itself. -/
theorem victim_setup {fuel : Nat} {s : BPMI} {vf : Int} {r2 : ClockReplacer}
    (hI : Inv s) (hfl : s.free_list = [])
    (hv : victimR fuel s.replacer = some (some vf, r2)) :
    ∃ q, 0 ≤ vf ∧ (q, vf.toNat) ∈ s.page_table ∧ 0 ≤ q ∧ q < s.next_page_id ∧
      vf.toNat < s.pool_size ∧ (getPage s vf.toNat).page_id = q ∧
      ReplacerWF r2 ∧
      (∀ j, j < r2.frame_ids.length → r2.frame_ids.getD j (-1) ≠ -1 →
        r2.pinned.getD j false = false →
        0 ≤ r2.frame_ids.getD j (-1) ∧
        ((∃ q2, (q2, (r2.frame_ids.getD j (-1)).toNat) ∈ eraseT s.page_table q) ∨
         (r2.frame_ids.getD j (-1)).toNat = vf.toNat)) := by
  obtain ⟨i, hival, hvne, hipin, hfr, hpn, hrl, hms⟩ := victimR_some hv
  have hilt : i < s.replacer.frame_ids.length := by
    apply lt_of_getD_ne
    rw [hival]
    exact hvne
  obtain ⟨hv0, hdis⟩ := hI.hrep i hilt (by rw [hival]; exact hvne) hipin
  rw [hival] at hv0 hdis
  have hq : ∃ q, (q, vf.toNat) ∈ s.page_table := by
    cases hdis with
    | inl hin => rw [hfl] at hin; cases hin
    | inr h => exact h
  obtain ⟨q, hqmem⟩ := hq
  obtain ⟨hq0, hqN, hqlt, hqpid⟩ := hI.htab (q, vf.toNat) hqmem
  refine ⟨q, hv0, hqmem, hq0, hqN, hqlt, hqpid, ?_, ?_⟩
  · obtain ⟨hx, hy, hz⟩ := hI.hwf
    refine ⟨?_, ?_, ?_⟩
    · rw [hfr, List.length_set, hms]
      exact hx
    · rw [hpn, hms]
      exact hy
    · rw [hrl, hms]
      exact hz
  · intro j hj hne2 hpf2
    have hji : j ≠ i := by
      intro hji
      subst hji
      apply hne2
      rw [hfr]
      exact getD_set_self _ _ _ _ hilt
    have hval2 : r2.frame_ids.getD j (-1) = s.replacer.frame_ids.getD j (-1) := by
      rw [hfr]
      exact getD_set_ne _ _ _ (fun hij => hji hij.symm)
    have hj2 : j < s.replacer.frame_ids.length := by
      rw [hfr, List.length_set] at hj
      exact hj
    have hpf3 : s.replacer.pinned.getD j false = false := by rw [← hpn]; exact hpf2
    obtain ⟨h0, hdis2⟩ := hI.hrep j hj2 (by rw [← hval2]; exact hne2) hpf3
    rw [← hval2] at h0 hdis2
    refine ⟨h0, ?_⟩
    cases hdis2 with
    | inl hin => rw [hfl] at hin; cases hin
    | inr hex =>
      obtain ⟨q2, hq2⟩ := hex
      by_cases hq2q : q2 = q
      · subst hq2q
        right
        exact key_functional hI.hkeys hq2 hqmem
      · left
        exact ⟨q2, mem_eraseT.mpr ⟨hq2, hq2q⟩⟩

/-- `FetchPgImp` preserves the invariant when the requested id lies in the
allocated range. -/
theorem inv_fetchPg {fuel : Nat} {s s2 : BPMI} {p : Int} {res : Option Nat}
    (hI : Inv s) (hp0 : 0 ≤ p) (hpN : p < s.next_page_id)
    (h : fetchPg fuel s p = some (res, s2)) : Inv s2 := by
  cases hl : lookupT s.page_table p with
  | some f =>
    by_cases hpin : 0 < (getPage s f).pin_count
    · have hbody : fetchPg fuel s p = some (none, s) := by
        rw [fetchPg, hl]
        simp [hpin]
      rw [hbody] at h
      simp only [Option.some.injEq, Prod.mk.injEq] at h
      rw [← h.2]
      exact hI
    · have hbody : fetchPg fuel s p = some (some f, { s with
          pages := s.pages.set f
            { getPage s f with pin_count := (getPage s f).pin_count + 1 }
          replacer := pinR s.replacer ((f : Nat) : Int) }) := by
        rw [fetchPg, hl]
        simp [hpin]
      rw [hbody] at h
      simp only [Option.some.injEq, Prod.mk.injEq] at h
      rw [← h.2]
      refine inv_meta_update s f _ _ rfl ?_ hI
      refine Or.inr ⟨((f : Nat) : Int), Or.inr rfl, Int.ofNat_nonneg f, Or.inr ⟨p, ?_⟩⟩
      rw [Int.toNat_ofNat]
      exact lookupT_mem hl
  | none =>
    have hpt : ∀ e ∈ s.page_table, e.1 ≠ p := lookupT_none hl
    cases hfl : s.free_list with
    | cons f rest =>
      have hffacts := hI.hfree f (by rw [hfl]; exact List.mem_cons.mpr (Or.inl rfl))
      have hfnotrest : f ∉ rest := by
        have := hI.hfnd
        rw [hfl, List.nodup_cons] at this
        exact this.1
      have hpid : (getPage s f).page_id = -1 := hffacts.2
      have hbody : fetchPg fuel s p =
          some (fetchInstall { s with free_list := rest } p f) := by
        rw [fetchPg, hl, hfl]
      have hfi : (fetchInstall { s with free_list := rest } p f).2 =
          { s with free_list := rest
                   next_page_id := s.next_page_id
                   page_table := insertT s.page_table p f
                   pages := s.pages.set f { page_id := p, pin_count := 1, is_dirty := false }
                   replacer := pinR s.replacer ((f : Nat) : Int) } := by
        rw [fetchInstall]
        simp only []
        have : getPage { s with free_list := rest } f = getPage s f := rfl
        rw [this, hpid, eraseT_eq_self (fun e he hneg => by
          have := (hI.htab e he).1
          rw [hneg] at this
          exact absurd this (by norm_num))]
      rw [hbody] at h
      simp only [Option.some.injEq] at h
      have hs2 : s2 = (fetchInstall { s with free_list := rest } p f).2 := by
        rw [h]
      rw [hs2, hfi]
      exact inv_install { s with free_list := rest } s.next_page_id s.page_table p f false
        hI.hnum
        (by show s.pool_size = rest.length + (s.page_table.length + 1)
            have := hI.hsize
            rw [hfl, List.length_cons] at this
            omega)
        (fun e he => by
          obtain ⟨h0, hN, hlt, hpidq⟩ := hI.htab e he
          refine ⟨h0, hN, hlt, hpidq, ?_⟩
          intro hef
          rw [hef, hpid] at hpidq
          rw [← hpidq] at h0
          exact absurd h0 (by norm_num))
        hp0 hpN hpt
        (fun g hg => by
          obtain ⟨hglt, hgpid⟩ := hI.hfree g (by rw [hfl]; exact List.mem_cons.mpr (Or.inr hg))
          exact ⟨hglt, hgpid, fun hgf => hfnotrest (hgf ▸ hg)⟩)
        hI.hkeys
        (by have := hI.hfnd; rw [hfl, List.nodup_cons] at this; exact this.2)
        (fun i hi hne hpf => by
          obtain ⟨h0, hdis⟩ := hI.hrep i hi hne hpf
          refine ⟨h0, ?_⟩
          cases hdis with
          | inl hin =>
            rw [hfl] at hin
            cases List.mem_cons.mp hin with
            | inl hisf => exact Or.inr (Or.inr hisf)
            | inr hinrest => exact Or.inl hinrest
          | inr hex => exact Or.inr (Or.inl hex))
        hI.hwf hI.hnext hI.hplen hffacts.1
    | nil =>
      cases hv : victimR fuel s.replacer with
      | none =>
        have hbody : fetchPg fuel s p = none := by
          rw [fetchPg, hl, hfl, hv]
        rw [hbody] at h
        cases h
      | some pr =>
        obtain ⟨ores, r2⟩ := pr
        cases ores with
        | none =>
          have hbody : fetchPg fuel s p = some (none, { s with replacer := r2 }) := by
            rw [fetchPg, hl, hfl, hv]
          rw [hbody] at h
          simp only [Option.some.injEq, Prod.mk.injEq] at h
          rw [← h.2, victimR_false_id hv]
          exact ⟨hI.hnum, hI.hsize, hI.htab, hI.hfree, hI.hkeys, hI.hfnd, hI.hrep,
            hI.hwf, hI.hnext, hI.hplen⟩
        | some vf =>
          obtain ⟨q, hv0, hqmem, hq0, hqN, hqlt, hqpid, hwf2, hrepV⟩ :=
            victim_setup hI hfl hv
          have hbody : fetchPg fuel s p =
              some (fetchInstall { s with replacer := r2 } p vf.toNat) := by
            rw [fetchPg, hl, hfl, hv]
          have hfi : (fetchInstall { s with replacer := r2 } p vf.toNat).2 =
              { s with replacer := pinR r2 ((vf.toNat : Nat) : Int)
                       next_page_id := s.next_page_id
                       page_table := insertT (eraseT s.page_table q) p vf.toNat
                       pages := s.pages.set vf.toNat
                         { page_id := p, pin_count := 1, is_dirty := false } } := by
            rw [fetchInstall]
            simp only []
            have : getPage { s with replacer := r2 } vf.toNat = getPage s vf.toNat := rfl
            rw [this, hqpid]
          rw [hbody] at h
          simp only [Option.some.injEq] at h
          have hs2 : s2 = (fetchInstall { s with replacer := r2 } p vf.toNat).2 := by
            rw [h]
          rw [hs2, hfi]
          exact inv_install { s with replacer := r2 } s.next_page_id
            (eraseT s.page_table q) p vf.toNat false
            hI.hnum
            (by show s.pool_size = s.free_list.length + ((eraseT s.page_table q).length + 1)
                have hlen := length_eraseT_mem hI.hkeys hqmem
                have := hI.hsize
                omega)
            (fun e he => by
              obtain ⟨hemem, hekey⟩ := mem_eraseT.mp he
              obtain ⟨h0, hN, hlt, hpidq⟩ := hI.htab e hemem
              refine ⟨h0, hN, hlt, hpidq, ?_⟩
              intro hef
              apply hekey
              rw [← hpidq, hef, hqpid])
            hp0 hpN
            (fun e he => hpt e (mem_eraseT.mp he).1)
            (fun g hg => by rw [hfl] at hg; cases hg)
            (keys_eraseT_nodup hI.hkeys)
            hI.hfnd
            (fun i hi hne hpf => by
              obtain ⟨h0, hdis⟩ := hrepV i hi hne hpf
              refine ⟨h0, ?_⟩
              cases hdis with
              | inl hex => exact Or.inr (Or.inl hex)
              | inr hisf => exact Or.inr (Or.inr hisf))
            hwf2 hI.hnext hI.hplen hqlt

/-- `FlushPgImp` only touches one frame's dirty flag: the directory, free
list, replacer, counters and every frame's page id survive it. -/
theorem flushPg_state (s : BPMI) (q : Int) :
    (flushPg s q).2.page_table = s.page_table ∧
    (flushPg s q).2.free_list = s.free_list ∧
    (flushPg s q).2.replacer = s.replacer ∧
    (flushPg s q).2.next_page_id = s.next_page_id ∧
    (flushPg s q).2.pool_size = s.pool_size ∧
    (flushPg s q).2.num_instances = s.num_instances ∧
    (flushPg s q).2.pages.length = s.pages.length ∧
    ∀ g, (getPage (flushPg s q).2 g).page_id = (getPage s g).page_id := by
  cases hl : lookupT s.page_table q with
  | none =>
    have hbody : (flushPg s q).2 = s := by rw [flushPg, hl]
    rw [hbody]
    exact ⟨rfl, rfl, rfl, rfl, rfl, rfl, rfl, fun g => rfl⟩
  | some f2 =>
    have hbody : (flushPg s q).2 =
        { s with pages := s.pages.set f2 { getPage s f2 with is_dirty := false } } := by
      rw [flushPg, hl]
    rw [hbody]
    refine ⟨rfl, rfl, rfl, rfl, rfl, rfl, ?_, fun g => ?_⟩
    · show (s.pages.set f2 _).length = s.pages.length
      rw [List.length_set]
    · exact getPage_set_page_id s f2 g { getPage s f2 with is_dirty := false } rfl

/-- `NewPgImp` preserves the invariant. -/
theorem inv_newPg {fuel : Nat} {s s2 : BPMI} {res : Option (Int × Nat)}
    (hI : Inv s) (h : newPg fuel s = some (res, s2)) : Inv s2 := by
  have hnumZ : (0 : Int) < (s.num_instances : Int) := by exact_mod_cast hI.hnum
  have hNlt : s.next_page_id < s.next_page_id + (s.num_instances : Int) := by omega
  have hN0 : (0 : Int) ≤ s.next_page_id + (s.num_instances : Int) := by
    have := hI.hnext
    omega
  have hpt : ∀ e ∈ s.page_table, e.1 ≠ s.next_page_id := by
    intro e he hcontra
    have := (hI.htab e he).2.1
    rw [hcontra] at this
    exact absurd this (lt_irrefl _)
  by_cases hall : s.pages.all (fun pg => 0 < pg.pin_count) = true
  · have hbody : newPg fuel s = some (none, s) := by
      rw [newPg]
      simp [hall]
    rw [hbody] at h
    simp only [Option.some.injEq, Prod.mk.injEq] at h
    rw [← h.2]
    exact hI
  · cases hfl : s.free_list with
    | cons f rest =>
      have hffacts := hI.hfree f (by rw [hfl]; exact List.mem_cons.mpr (Or.inl rfl))
      have hfnotrest : f ∉ rest := by
        have := hI.hfnd
        rw [hfl, List.nodup_cons] at this
        exact this.1
      have hpid : (getPage s f).page_id = -1 := hffacts.2
      have hbody : newPg fuel s =
          some (newInstall { s with free_list := rest } f) := by
        rw [newPg, hfl]
        simp [hall]
      have hni : (newInstall { s with free_list := rest } f).2 =
          { s with free_list := rest
                   next_page_id := s.next_page_id + (s.num_instances : Int)
                   page_table := insertT s.page_table s.next_page_id f
                   pages := s.pages.set f
                     { page_id := s.next_page_id, pin_count := 1, is_dirty := true }
                   replacer := pinR s.replacer ((f : Nat) : Int) } := rfl
      rw [hbody] at h
      simp only [Option.some.injEq] at h
      have hs2 : s2 = (newInstall { s with free_list := rest } f).2 := by
        rw [h]
      rw [hs2, hni]
      exact inv_install { s with free_list := rest }
        (s.next_page_id + (s.num_instances : Int)) s.page_table s.next_page_id f true
        hI.hnum
        (by show s.pool_size = rest.length + (s.page_table.length + 1)
            have := hI.hsize
            rw [hfl, List.length_cons] at this
            omega)
        (fun e he => by
          obtain ⟨h0, hN, hlt, hpidq⟩ := hI.htab e he
          refine ⟨h0, lt_trans hN hNlt, hlt, hpidq, ?_⟩
          intro hef
          rw [hef, hpid] at hpidq
          rw [← hpidq] at h0
          exact absurd h0 (by norm_num))
        hI.hnext hNlt hpt
        (fun g hg => by
          obtain ⟨hglt, hgpid⟩ := hI.hfree g (by rw [hfl]; exact List.mem_cons.mpr (Or.inr hg))
          exact ⟨hglt, hgpid, fun hgf => hfnotrest (hgf ▸ hg)⟩)
        hI.hkeys
        (by have := hI.hfnd; rw [hfl, List.nodup_cons] at this; exact this.2)
        (fun i hi hne hpf => by
          obtain ⟨h0, hdis⟩ := hI.hrep i hi hne hpf
          refine ⟨h0, ?_⟩
          cases hdis with
          | inl hin =>
            rw [hfl] at hin
            cases List.mem_cons.mp hin with
            | inl hisf => exact Or.inr (Or.inr hisf)
            | inr hinrest => exact Or.inl hinrest
          | inr hex => exact Or.inr (Or.inl hex))
        hI.hwf hN0 hI.hplen hffacts.1
    | nil =>
      cases hv : victimR fuel s.replacer with
      | none =>
        have hbody : newPg fuel s = none := by
          rw [newPg, hfl, hv]
          simp [hall]
        rw [hbody] at h
        cases h
      | some pr =>
        obtain ⟨ores, r2⟩ := pr
        cases ores with
        | none =>
          have hbody : newPg fuel s = some (none, { s with replacer := r2 }) := by
            rw [newPg, hfl, hv]
            simp [hall]
          rw [hbody] at h
          simp only [Option.some.injEq, Prod.mk.injEq] at h
          rw [← h.2, victimR_false_id hv]
          exact ⟨hI.hnum, hI.hsize, hI.htab, hI.hfree, hI.hkeys, hI.hfnd, hI.hrep,
            hI.hwf, hI.hnext, hI.hplen⟩
        | some vf =>
          obtain ⟨q, hv0, hqmem, hq0, hqN, hqlt, hqpid, hwf2, hrepV⟩ :=
            victim_setup hI hfl hv
          have hkey : ∃ sF : BPMI,
              newPg fuel s = some (newInstall { sF with
                page_table := eraseT sF.page_table (getPage sF vf.toNat).page_id }
                vf.toNat) ∧
              sF.page_table = s.page_table ∧ sF.free_list = [] ∧
              sF.replacer = r2 ∧ sF.next_page_id = s.next_page_id ∧
              sF.pool_size = s.pool_size ∧ sF.num_instances = s.num_instances ∧
              sF.pages.length = s.pages.length ∧
              (∀ g, (getPage sF g).page_id = (getPage s g).page_id) := by
            by_cases hdirty : (getPage s vf.toNat).is_dirty = true
            · have hd1 : (getPage { s with free_list := ([] : List Nat), replacer := r2 }
                  vf.toNat).is_dirty = true := hdirty
              obtain ⟨ha, hb, hc, hd, he, hf, hg, hh⟩ :=
                flushPg_state { s with free_list := ([] : List Nat), replacer := r2 }
                  (getPage { s with free_list := ([] : List Nat), replacer := r2 }
                    vf.toNat).page_id
              refine ⟨(flushPg { s with free_list := ([] : List Nat), replacer := r2 }
                  (getPage { s with free_list := ([] : List Nat), replacer := r2 }
                    vf.toNat).page_id).2, ?_,
                ha, hb, hc, hd, he, hf, hg, hh⟩
              rw [newPg, hfl, hv]
              simp [hall, hd1]
            · have hd1 : ¬((getPage { s with free_list := ([] : List Nat), replacer := r2 }
                  vf.toNat).is_dirty = true) := hdirty
              refine ⟨{ s with free_list := ([] : List Nat), replacer := r2 }, ?_,
                rfl, rfl, rfl, rfl, rfl, rfl, rfl, fun g => rfl⟩
              rw [newPg, hfl, hv]
              simp [hall, hd1]
          obtain ⟨sF, hbody, hFt, hFf, hFr, hFn, hFp, hFnum, hFlen, hFpid⟩ := hkey
          have hFq : (getPage sF vf.toNat).page_id = q := by
            rw [hFpid vf.toNat]
            exact hqpid
          have hni : (newInstall { sF with
              page_table := eraseT sF.page_table (getPage sF vf.toNat).page_id }
              vf.toNat).2 =
              { sF with
                page_table := insertT (eraseT s.page_table q) sF.next_page_id vf.toNat
                next_page_id := sF.next_page_id + (sF.num_instances : Int)
                pages := sF.pages.set vf.toNat
                  { page_id := sF.next_page_id, pin_count := 1, is_dirty := true }
                replacer := pinR sF.replacer ((vf.toNat : Nat) : Int) } := by
            rw [newInstall, allocatePage]
            simp only []
            rw [hFq, hFt]
          rw [hbody] at h
          simp only [Option.some.injEq] at h
          have hs2 : s2 = (newInstall { sF with
              page_table := eraseT sF.page_table (getPage sF vf.toNat).page_id }
              vf.toNat).2 := by
            rw [h]
          rw [hs2, hni]
          have hrepF : ∀ i, i < sF.replacer.frame_ids.length →
              sF.replacer.frame_ids.getD i (-1) ≠ -1 →
              sF.replacer.pinned.getD i false = false →
              0 ≤ sF.replacer.frame_ids.getD i (-1) ∧
              ((sF.replacer.frame_ids.getD i (-1)).toNat ∈ sF.free_list ∨
                (∃ q2, (q2, (sF.replacer.frame_ids.getD i (-1)).toNat) ∈
                  eraseT s.page_table q) ∨
                (sF.replacer.frame_ids.getD i (-1)).toNat = vf.toNat) := by
            rw [hFr]
            intro i hi hne hpf
            obtain ⟨h0, hdis⟩ := hrepV i hi hne hpf
            refine ⟨h0, ?_⟩
            cases hdis with
            | inl hex => exact Or.inr (Or.inl hex)
            | inr hisf => exact Or.inr (Or.inr hisf)
          refine inv_install sF (sF.next_page_id + (sF.num_instances : Int))
            (eraseT s.page_table q) sF.next_page_id vf.toNat true
            (by rw [hFnum]; exact hI.hnum)
            ?_ ?_ ?_ ?_ ?_ ?_ (keys_eraseT_nodup hI.hkeys) ?_ hrepF
            (by rw [hFr]; exact hwf2) ?_ ?_ ?_
          · show sF.pool_size = sF.free_list.length + ((eraseT s.page_table q).length + 1)
            rw [hFp, hFf]
            have hlen := length_eraseT_mem hI.hkeys hqmem
            have := hI.hsize
            rw [hfl] at this
            simp only [List.length_nil] at this ⊢
            omega
          · intro e he
            obtain ⟨hemem, hekey⟩ := mem_eraseT.mp he
            obtain ⟨h0, hN, hlt, hpidq⟩ := hI.htab e hemem
            rw [hFn, hFnum, hFp]
            refine ⟨h0, lt_trans hN hNlt, hlt, ?_, ?_⟩
            · rw [hFpid e.2]
              exact hpidq
            · intro hef
              apply hekey
              rw [← hpidq, hef, hqpid]
          · rw [hFn]
            exact hI.hnext
          · rw [hFn, hFnum]
            exact hNlt
          · intro e he
            rw [hFn]
            exact hpt e (mem_eraseT.mp he).1
          · intro g hg
            rw [hFf] at hg
            cases hg
          · rw [hFf]
            exact List.Pairwise.nil
          · rw [hFn, hFnum]
            exact hN0
          · rw [hFlen, hFp]
            exact hI.hplen
          · rw [hFp]
            exact hqlt

/-- One client operation on the pool.  `FetchPage` is restricted to
non-negative ids below the instance's current allocation counter (the
already-allocated range); the other operations take arbitrary arguments.
The fuel existentially quantified in `newp`/`fetchp` ranges over all values
for which the clock sweep terminates, so every terminating execution is
covered. -/
inductive OpStep : BPMI → BPMI → Prop where
  | newp (fuel : Nat) (res : Option (Int × Nat)) (s s2 : BPMI) :
      newPg fuel s = some (res, s2) → OpStep s s2
  | fetchp (fuel : Nat) (p : Int) (res : Option Nat) (s s2 : BPMI) :
      0 ≤ p → p < s.next_page_id → fetchPg fuel s p = some (res, s2) → OpStep s s2
  | unpinp (p : Int) (d : Bool) (s : BPMI) : OpStep s (unpinPg s p d).2
  | flushp (p : Int) (s : BPMI) : OpStep s (flushPg s p).2
  | flushallp (s : BPMI) : OpStep s (flushAllPg s)
  | delp (p : Int) (s : BPMI) : OpStep s (deletePg s p).2

/-- States reachable from `s0` by any sequence of client operations. -/
inductive Reach (s0 : BPMI) : BPMI → Prop where
  | refl : Reach s0 s0
  | step {s s2 : BPMI} : Reach s0 s → OpStep s s2 → Reach s0 s2

theorem inv_opStep {s s2 : BPMI} (hI : Inv s) (hstep : OpStep s s2) : Inv s2 := by
  cases hstep with
  | newp fuel res s s2 h => exact inv_newPg hI h
  | fetchp fuel p res s s2 hp0 hpN h => exact inv_fetchPg hI hp0 hpN h
  | unpinp p d s => exact inv_unpinPg s p d hI
  | flushp p s => exact inv_flushPg s p hI
  | flushallp s => exact hI
  | delp p s => exact inv_deletePg s p hI

theorem inv_reach {pool num idx : Nat} {s : BPMI} (hn : 0 < num)
    (h : Reach (initBPMI pool num idx) s) : Inv s := by
  induction h with
  | refl => exact inv_init pool num idx hn
  | step hr hstep ih => exact inv_opStep ih hstep

/-- C4, counterexample: from a freshly constructed pool of size 2, the
sequence `FetchPage(0)` (an id that `AllocatePage` has not yet handed out)
followed by `NewPage` reaches a state where `pool_size = 2` but
`|free list| + |directory| = 1`: `NewPage` allocates id 0 and its
`page_table_[0] = frame` assignment overwrites the directory entry created by
the fetch, losing a frame. -/
theorem pool_size_invariant_violated :
    ((fetchPg 1 (initBPMI 2 1 0) 0).bind (fun a => (newPg 1 a.2).map (fun n => n.2))).map
      (fun s => (s.pool_size, s.free_list.length + s.page_table.length)) =
      some (2, 1) := by decide

/-- C4, amended: for every state reachable from a freshly constructed BPMI by
any sequence of NewPage, FetchPage, UnpinPage, FlushPage, FlushAllPages and
DeletePage in which every FetchPage argument is a non-negative page id below
the instance's current allocation counter (in particular, any id a NewPage of
this instance has already returned), the pool size equals the length of the
free list plus the number of directory entries. -/
theorem pool_size_invariant (pool num idx : Nat) (s : BPMI) (hn : 0 < num)
    (h : Reach (initBPMI pool num idx) s) :
    s.pool_size = s.free_list.length + s.page_table.length :=
  (inv_reach hn h).hsize

/-- Witness for `pool_size_invariant`: after `NewPage`, `UnpinPage(0, false)`
and `FetchPage(0)` on a pool of size 1, the invariant is evaluated on the
resulting concrete state. -/
theorem pool_size_invariant_witness :
    (fetchPg 1 (unpinPg c1State 0 false).2 0).map
        (fun a => (a.2.pool_size, a.2.free_list.length + a.2.page_table.length)) =
      some (1, 1) ∧
    ((fetchPg 1 (unpinPg c1State 0 false).2 0).getD (none, c1State)).2.pool_size =
      ((fetchPg 1 (unpinPg c1State 0 false).2 0).getD
        (none, c1State)).2.free_list.length +
      ((fetchPg 1 (unpinPg c1State 0 false).2 0).getD
        (none, c1State)).2.page_table.length := by
  constructor
  · decide
  · exact pool_size_invariant 1 1 0 _ (by decide)
      (Reach.step
        (Reach.step
          (Reach.step Reach.refl
            (OpStep.newp 1 (some (0, 0)) (initBPMI 1 1 0) c1State (by decide)))
          (OpStep.unpinp 0 false c1State))
        (OpStep.fetchp 1 0 (some 0) (unpinPg c1State 0 false).2
          ((fetchPg 1 (unpinPg c1State 0 false).2 0).getD (none, c1State)).2
          (by decide) (by decide) (by decide)))

end Bustub
